import Mathlib

/-!
# Verification of the PHP refactor engine (symbol index, rename, move, diagnostics)

This file gives a shallow embedding, in Lean 4, of the core logic of the
`vs-php-refactor-tools` repository:

* `src/psr4.ts` — namespace resolution from composer autoload mappings;
* `src/indexer.ts` (shipped unnamed) — the workspace symbol index
  (definitions, methods, inheritance edges, usage index) and its scan guard;
* `src/refactorPreview.ts` — the edit planner for method renames
  (`findMethodUsages`, with the textual pre-filter of
  `createMethodRenameEdit`) and for file moves (`findAndUpdateImports`);
* `src/renameProvider.ts` (shipped unnamed) — the class/interface-aware
  rename provider traversal;
* `src/importDiagnostics.ts` — the missing-import diagnostics pipeline.

The AST consumed by the TypeScript code is the output of the external
`php-parser` package: plain JavaScript objects with a `kind` string, an
optional `loc` source span, and further node-, array- or string-valued
fields accessed both by name and by generic `for (const key in node)`
iteration.  We embed such objects as a `kind`, an optional `Loc`, and an
ordered association list of named fields, so that generic key iteration is
iteration over that list and named access is lookup.  Line numbers are
1-based and columns 0-based, exactly as in `php-parser`'s `loc` spans; the
editor ranges the code produces subtract 1 from lines, which we mirror.
-/

/-- A `php-parser` source location: 1-based lines, 0-based columns. -/
structure Loc where
  sline : Nat
  scol : Nat
  eline : Nat
  ecol : Nat
deriving DecidableEq, Repr

/-- An editor position: 0-based line and column (as in `vscode.Position`). -/
structure EPos where
  line : Nat
  col : Nat
deriving DecidableEq, Repr

/-- An editor range (as in `vscode.Range`): start and stop positions. -/
structure ERange where
  rstart : EPos
  rstop : EPos
deriving DecidableEq, Repr

/-- A text edit: replace `range` by `newText` (`vscode.TextEdit`).
An insertion is an edit whose range is empty. -/
structure TextEdit where
  range : ERange
  newText : String
deriving DecidableEq, Repr

/-- `new vscode.Range(loc.start.line - 1, loc.start.column, loc.end.line - 1,
loc.end.column)` — the conversion the TypeScript code applies to every
`php-parser` location before emitting an edit. -/
def locRange (l : Loc) : ERange :=
  ⟨⟨l.sline - 1, l.scol⟩, ⟨l.eline - 1, l.ecol⟩⟩

/-- Lexicographic order on editor positions. -/
def eposLe (a b : EPos) : Bool :=
  a.line < b.line || (a.line == b.line && a.col ≤ b.col)

/-- Two ranges are disjoint when one ends at or before the start of the
other (touching end points do not count as an overlap). -/
def rangesDisjoint (a b : ERange) : Bool :=
  eposLe a.rstop b.rstart || eposLe b.rstop a.rstart

mutual
/-- The value of one field of a `php-parser` AST object, as consumed by the
TypeScript code: a nested node, an array of nodes, a string, or an array of
strings (`parts`). -/
inductive FieldVal : Type where
  | vnode (n : Node)
  | varr (ns : List Node)
  | vstr (s : String)
  | vstrs (ss : List String)

/-- A `php-parser` AST object: its `kind`, its optional `loc`, and its
remaining fields in object-key insertion order (generic `for key in node`
iteration in the source walks this order). -/
inductive Node : Type where
  | mk (kind : String) (loc : Option Loc) (fields : List (String × FieldVal))
end

def Node.kind : Node → String
  | .mk k _ _ => k

def Node.loc : Node → Option Loc
  | .mk _ l _ => l

def Node.fields : Node → List (String × FieldVal)
  | .mk _ _ f => f

/-- First-match field lookup (JS object keys are unique, so first = only). -/
def lookupF : List (String × FieldVal) → String → Option FieldVal
  | [], _ => none
  | (k, v) :: rest, key => if k = key then some v else lookupF rest key

def Node.get (n : Node) (k : String) : Option FieldVal :=
  lookupF n.fields k

/-- `node.k` when the field holds a single node. -/
def Node.getNode (n : Node) (k : String) : Option Node :=
  match n.get k with
  | some (.vnode m) => some m
  | _ => none

/-- `node.k` when the field holds an array of nodes. -/
def Node.getArr (n : Node) (k : String) : Option (List Node) :=
  match n.get k with
  | some (.varr l) => some l
  | _ => none

/-- `node.k` when the field holds a string. -/
def Node.getStr (n : Node) (k : String) : Option String :=
  match n.get k with
  | some (.vstr s) => some s
  | _ => none

/-- `node.k` when the field holds an array of strings. -/
def Node.getStrs (n : Node) (k : String) : Option (List String) :=
  match n.get k with
  | some (.vstrs l) => some l
  | _ => none

/-! ## Shared string helpers

JavaScript string primitives (`split`, `startsWith`, `endsWith`,
`substring`, `includes`, `length`) are embedded as character-list
operations on `String.data`.  All strings involved are ASCII, where
JavaScript's UTF-16 indices and Lean's character indices agree. -/

/-- `l.split(c)` for a single character separator. -/
def splitChar (c : Char) : List Char → List (List Char)
  | [] => [[]]
  | x :: xs =>
    match splitChar c xs with
    | [] => [[]]
    | g :: gs => if x = c then [] :: g :: gs else (x :: g) :: gs

/-- `s.startsWith(p)`. -/
def strStarts (s p : String) : Bool :=
  List.isPrefixOf p.data s.data

/-- `s.endsWith(p)`. -/
def strEnds (s p : String) : Bool :=
  List.isSuffixOf p.data s.data

/-- `s.substring(n)` — drop the first `n` characters. -/
def strDropL (s : String) (n : Nat) : String :=
  ⟨s.data.drop n⟩

/-- Drop the last `n` characters (used for anchored suffix replacement). -/
def strDropR (s : String) (n : Nat) : String :=
  ⟨s.data.take (s.data.length - n)⟩

/-- `s.length`. -/
def strLen (s : String) : Nat :=
  s.data.length

/-- Last `\`-separated component of a name: `fqn.split('\\').pop()` in the
source.  For a nonempty string without backslashes this is the string
itself; a trailing backslash yields `""` (as the final split component). -/
def lastPart (s : String) : String :=
  ⟨(splitChar '\x5c' s.data).getLastD []⟩

/-- Sliding-window sublist search over characters. -/
def charsContain (pat : List Char) : List Char → Bool
  | [] => pat.isEmpty
  | c :: rest => pat.isPrefixOf (c :: rest) || charsContain pat rest

/-- `str.includes(sub)` — substring containment test. -/
def strContainsSub (s pat : String) : Bool :=
  charsContain pat.data s.data

/-- `name.replace(new RegExp(old + '$'), new)` for a plain-identifier
`old`: replace the suffix `old` by `new` when present. -/
def replaceSuffix (s old new : String) : String :=
  if strEnds s old then strDropR s (strLen old) ++ new else s

/-! ## §4.1 Namespace Resolver — `getNamespaceFromPath` (`src/psr4.ts`)

The source loads `composer.json`, merges the `autoload` and `autoload-dev`
`psr-4` tables into one object, normalises the file's directory to a
workspace-relative unix path `relativeDir`, and then runs a nested loop
over the table entries looking for the best prefix match.  We embed the
nested loop verbatim over the merged table, given as a list of
`(namespace, directory prefixes)` pairs in object-key iteration order,
with paths already in unix form (the `toUnix` conversion in the source is
the identity on unix paths). -/

/-- `toUnix(p).replace(/\/$/, '')` — strip a single trailing slash. -/
def normPrefix (p : String) : String :=
  if strEnds p "/" then strDropR p 1 else p

/-- `relativeDir === normalizedPrefix ||
relativeDir.startsWith(normalizedPrefix + '/')`. -/
def prefixMatches (relativeDir np : String) : Bool :=
  relativeDir == np || strStarts relativeDir (np ++ "/")

/-- The sub-namespace computed for a matching prefix:
`relativeDir.substring(np.length)`, a leading `/` trimmed, then `/`
replaced by `\` (`split('/').join('\\')` replaces every separator). -/
def subNamespace (relativeDir np : String) : String :=
  let sub := strDropL relativeDir (strLen np)
  let sub := if strStarts sub "/" then strDropL sub 1 else sub
  ⟨sub.data.map (fun ch => if ch = '/' then '\x5c' else ch)⟩

/-- One iteration of the inner `for (const p of pathArray)` loop: on a
match whose normalised prefix length is `>= bestMatchLength`, both the
best length and the best namespace are replaced. -/
def psr4Step (relativeDir : String) (acc : String × Nat) (ns p : String) :
    String × Nat :=
  let np := normPrefix p
  if prefixMatches relativeDir np then
    if acc.2 ≤ strLen np then (ns ++ subNamespace relativeDir np, strLen np)
    else acc
  else acc

/-- The inner loop over one entry's path array. -/
def psr4Inner (relativeDir ns : String) :
    List String → (String × Nat) → String × Nat
  | [], acc => acc
  | p :: rest, acc =>
      psr4Inner relativeDir ns rest (psr4Step relativeDir acc ns p)

/-- The outer loop over `Object.entries(autoloads)`. -/
def psr4Outer (relativeDir : String) :
    List (String × List String) → (String × Nat) → String × Nat
  | [], acc => acc
  | (ns, ps) :: rest, acc =>
      psr4Outer relativeDir rest (psr4Inner relativeDir ns ps acc)

/-- `bestMatchNamespace.replace(/\\$/, '')` — strip one trailing backslash. -/
def stripTrailingBk (s : String) : String :=
  if strEnds s "\x5c" then strDropR s 1 else s

/-- The namespace string computed by the matching loop of
`getNamespaceFromPath`, starting from `bestMatchNamespace = ''`,
`bestMatchLength = 0`. -/
def psr4Core (autoloads : List (String × List String))
    (relativeDir : String) : String :=
  stripTrailingBk (psr4Outer relativeDir autoloads ("", 0)).1

/-- `getNamespaceFromPath` in full: `null` when the file is not in a
workspace, when no `composer.json` exists, or when reading/parsing it
fails; otherwise the (possibly empty) string computed by the matching
loop. -/
def getNamespaceFromPathModel (inWorkspace hasComposer readOk : Bool)
    (autoloads : List (String × List String)) (relativeDir : String) :
    Option String :=
  if inWorkspace = false then none
  else if hasComposer = false then none
  else if readOk = false then none
  else some (psr4Core autoloads relativeDir)

/-! Specification-side description of the prefix choice (following the
spec's words: longest matching prefix by character length; among
equal-length matching prefixes, the last in iteration order wins). -/

/-- All `(namespace, normalised prefix)` pairs in iteration order. -/
def flatPrefixes (autoloads : List (String × List String)) :
    List (String × String) :=
  autoloads.flatMap (fun e => e.2.map (fun p => (e.1, normPrefix p)))

/-- The matching pairs, in iteration order. -/
def matchingPrefixes (autoloads : List (String × List String))
    (relativeDir : String) : List (String × String) :=
  (flatPrefixes autoloads).filter (fun pr => prefixMatches relativeDir pr.2)

/-- The greatest prefix length in a list of pairs. -/
def maxPrefixLen (l : List (String × String)) : Nat :=
  l.foldr (fun pr m => max (strLen pr.2) m) 0

/-- Spec-side choice: among the matching prefixes, keep those of maximal
length and take the last one in iteration order. -/
def specChoice (l : List (String × String)) : Option (String × String) :=
  (l.filter (fun pr => strLen pr.2 = maxPrefixLen l)).getLast?

/-- `psr4Step` over a pair whose prefix is already normalised. -/
def psr4StepN (relativeDir : String) (acc : String × Nat)
    (pr : String × String) : String × Nat :=
  if prefixMatches relativeDir pr.2 then
    if acc.2 ≤ strLen pr.2 then
      (pr.1 ++ subNamespace relativeDir pr.2, strLen pr.2)
    else acc
  else acc

theorem psr4Step_eq_stepN (rd : String) (acc : String × Nat) (ns p : String) :
    psr4Step rd acc ns p = psr4StepN rd acc (ns, normPrefix p) := rfl

theorem psr4Inner_eq_foldl (rd ns : String) (ps : List String)
    (acc : String × Nat) :
    psr4Inner rd ns ps acc =
      List.foldl (psr4StepN rd) acc (ps.map (fun p => (ns, normPrefix p))) := by
  induction ps generalizing acc with
  | nil => rfl
  | cons p rest ih => simp [psr4Inner, ih, psr4Step_eq_stepN]

theorem psr4Outer_eq_foldl (rd : String) (al : List (String × List String))
    (acc : String × Nat) :
    psr4Outer rd al acc = List.foldl (psr4StepN rd) acc (flatPrefixes al) := by
  induction al generalizing acc with
  | nil => rfl
  | cons e rest ih =>
    cases e with
    | mk ns ps =>
      simp only [psr4Outer, flatPrefixes, List.flatMap_cons, List.foldl_append,
        psr4Inner_eq_foldl, ih]

theorem foldr_max_base (m : List (String × String)) (b : Nat) :
    m.foldr (fun pr acc => max (strLen pr.2) acc) b = max (maxPrefixLen m) b := by
  induction m with
  | nil => simp [maxPrefixLen]
  | cons x m ih => simp [maxPrefixLen] at ih ⊢; omega

theorem maxPrefixLen_snoc (m : List (String × String)) (a : String × String) :
    maxPrefixLen (m ++ [a]) = max (maxPrefixLen m) (strLen a.2) := by
  unfold maxPrefixLen
  rw [List.foldr_append, foldr_max_base]
  simp [maxPrefixLen]

theorem exists_maxPrefixLen (m : List (String × String)) (h : m ≠ []) :
    ∃ x ∈ m, strLen x.2 = maxPrefixLen m := by
  induction m with
  | nil => simp at h
  | cons x m ih =>
    cases m with
    | nil =>
      refine ⟨x, by simp, ?_⟩
      simp [maxPrefixLen]
    | cons y t =>
      rcases ih (by simp) with ⟨z, hz, hzl⟩
      by_cases hc : maxPrefixLen (y :: t) ≤ strLen x.2
      · refine ⟨x, by simp, ?_⟩
        simp only [maxPrefixLen, List.foldr_cons] at hc ⊢
        omega
      · refine ⟨z, by simp [hz], ?_⟩
        simp only [maxPrefixLen, List.foldr_cons] at hc hzl ⊢
        omega

theorem specChoice_eq_none (m : List (String × String)) :
    specChoice m = none ↔ m = [] := by
  constructor
  · intro h
    by_contra hne
    rcases exists_maxPrefixLen m hne with ⟨x, hx, hxl⟩
    unfold specChoice at h
    rw [List.getLast?_eq_none_iff, List.filter_eq_nil_iff] at h
    exact h x hx (by simp [hxl])
  · intro h; subst h; rfl

theorem specChoice_mem {m : List (String × String)} {pr : String × String}
    (h : specChoice m = some pr) :
    pr ∈ m ∧ strLen pr.2 = maxPrefixLen m := by
  unfold specChoice at h
  have hmem : pr ∈ (m.filter (fun pr => strLen pr.2 = maxPrefixLen m)).getLast? := h
  rcases List.mem_getLast?_eq_getLast hmem with ⟨hne, heq⟩
  have hin := heq ▸ List.getLast_mem hne
  rw [List.mem_filter] at hin
  exact ⟨hin.1, by simpa using hin.2⟩

theorem specChoice_snoc_of_ge (m : List (String × String))
    (a : String × String) (h : maxPrefixLen m ≤ strLen a.2) :
    specChoice (m ++ [a]) = some a := by
  unfold specChoice
  rw [maxPrefixLen_snoc, Nat.max_eq_right h, List.filter_append]
  simp only [List.filter_cons, List.filter_nil]
  rw [if_pos (by simp)]
  exact List.getLast?_concat _

theorem specChoice_snoc_of_lt (m : List (String × String))
    (a : String × String) (h : strLen a.2 < maxPrefixLen m) :
    specChoice (m ++ [a]) = specChoice m := by
  unfold specChoice
  rw [maxPrefixLen_snoc, Nat.max_eq_left (Nat.le_of_lt h), List.filter_append]
  simp only [List.filter_cons, List.filter_nil]
  rw [if_neg (by simp; omega)]
  simp

theorem psr4_fold_spec (rd : String) (l : List (String × String)) :
    List.foldl (psr4StepN rd) ("", 0) l =
      match specChoice (l.filter (fun pr => prefixMatches rd pr.2)) with
      | none => ("", 0)
      | some pr => (pr.1 ++ subNamespace rd pr.2, strLen pr.2) := by
  induction l using List.reverseRecOn with
  | nil => rfl
  | append_singleton l a ih =>
    rw [List.foldl_append, List.filter_append, ih]
    by_cases ha : prefixMatches rd a.2
    · simp only [List.filter_cons, List.filter_nil, ha, if_pos]
      cases hsc : specChoice (l.filter (fun pr => prefixMatches rd pr.2)) with
      | none =>
        have hnil := (specChoice_eq_none _).1 hsc
        rw [hnil]
        have hsa : specChoice ([] ++ [a]) = some a :=
          specChoice_snoc_of_ge [] a (by simp [maxPrefixLen])
        simp only [List.nil_append] at hsa
        simp only [List.nil_append, List.foldl_cons, List.foldl_nil, hsa]
        simp [psr4StepN, ha]
      | some pr =>
        rcases specChoice_mem hsc with ⟨hmem, hlen⟩
        simp only [List.foldl_cons, List.foldl_nil]
        by_cases hge : strLen pr.2 ≤ strLen a.2
        · rw [specChoice_snoc_of_ge _ _ (by omega)]
          simp [psr4StepN, ha, hge]
        · rw [specChoice_snoc_of_lt _ _ (by omega)]
          rw [hsc]
          simp only [psr4StepN, ha, if_pos]
          rw [if_neg (by omega)]
    · simp only [List.filter_cons, List.filter_nil, ha]
      simp only [Bool.false_eq_true, if_false, List.append_nil,
        List.foldl_cons, List.foldl_nil]
      cases hsc : specChoice (l.filter (fun pr => prefixMatches rd pr.2)) with
      | none => simp [psr4StepN, ha]
      | some pr => simp [psr4StepN, ha]

/-- **C5** (namespace resolution result).  Whenever at least one autoload
prefix matches the file's directory, the matching loop of
`getNamespaceFromPath` produces exactly `chosenNamespacePrefix` ++ the
remainder path with `/` converted to `\` (followed by the source's final
single-trailing-backslash cleanup), where the chosen prefix is the one
`specChoice` describes: among all matching prefixes it has maximal
character length (never a shorter one), and among matching prefixes of
that maximal length it is the last one in iteration order. -/
theorem psr4_longest_prefix_last_wins
    (autoloads : List (String × List String)) (relativeDir : String)
    (h : matchingPrefixes autoloads relativeDir ≠ []) :
    ∃ pr, specChoice (matchingPrefixes autoloads relativeDir) = some pr ∧
      pr ∈ matchingPrefixes autoloads relativeDir ∧
      strLen pr.2 = maxPrefixLen (matchingPrefixes autoloads relativeDir) ∧
      psr4Core autoloads relativeDir =
        stripTrailingBk (pr.1 ++ subNamespace relativeDir pr.2) := by
  unfold psr4Core
  rw [psr4Outer_eq_foldl, psr4_fold_spec]
  cases hsc : specChoice (matchingPrefixes autoloads relativeDir) with
  | none => exact absurd ((specChoice_eq_none _).1 hsc) h
  | some pr =>
    rcases specChoice_mem hsc with ⟨hmem, hlen⟩
    refine ⟨pr, rfl, hmem, hlen, ?_⟩
    unfold matchingPrefixes at hsc
    rw [hsc]

/-- Witness for C5 at a concrete configuration: two prefixes match
`src/Sub` — `App\` via `src/` and `Dev\` via `src` — of equal normalised
length; the later one (`Dev\`) wins and the remainder `Sub` is attached
after the prefix namespace. -/
theorem psr4_longest_prefix_last_wins_witness :
    matchingPrefixes [("A\x5c", ["app"]), ("App\x5c", ["src/"]),
        ("Dev\x5c", ["src"])] "src/Sub" ≠ [] ∧
      ∃ pr, specChoice (matchingPrefixes [("A\x5c", ["app"]),
            ("App\x5c", ["src/"]), ("Dev\x5c", ["src"])] "src/Sub") = some pr ∧
        pr ∈ matchingPrefixes [("A\x5c", ["app"]), ("App\x5c", ["src/"]),
            ("Dev\x5c", ["src"])] "src/Sub" ∧
        strLen pr.2 = maxPrefixLen (matchingPrefixes [("A\x5c", ["app"]),
            ("App\x5c", ["src/"]), ("Dev\x5c", ["src"])] "src/Sub") ∧
        psr4Core [("A\x5c", ["app"]), ("App\x5c", ["src/"]),
            ("Dev\x5c", ["src"])] "src/Sub" =
          stripTrailingBk (pr.1 ++ subNamespace "src/Sub" pr.2) :=
  ⟨by decide, psr4_longest_prefix_last_wins _ _ (by decide)⟩

/-- **C6 counterexample.**  The claim states that `resolve(filePath)`
returns an absent result (`None`) whenever a mapping file exists but no
configured prefix matches the file's directory.  At the concrete
configuration `{"App\\": "src"}` and file directory `lib` — where no
prefix matches — `getNamespaceFromPath` instead returns the *empty
string* `''` (its `bestMatchNamespace` initial value, passed through the
final cleanup and returned), not `null`: the `null` returns in the source
occur only before the matching loop (no workspace, no `composer.json`,
read failure). -/
theorem psr4_no_match_returns_empty_string_not_none :
    getNamespaceFromPathModel true true true [("App\x5c", ["src"])] "lib" =
        some "" ∧
      getNamespaceFromPathModel true true true [("App\x5c", ["src"])] "lib" ≠
        none := by
  constructor
  · decide
  · decide

/-- **C6 amended.**  `resolve` returns `None` exactly when no
`composer.json` mapping file exists (or the file is outside the workspace,
or the mapping file cannot be read); when a mapping file exists but no
prefix matches, it returns the *empty namespace string* (`some ""`), not
`None`. -/
theorem psr4_failure_modes (autoloads : List (String × List String))
    (relativeDir : String)
    (hm : matchingPrefixes autoloads relativeDir = []) :
    (∀ hc ro, getNamespaceFromPathModel false hc ro autoloads relativeDir =
        none) ∧
      (∀ ro, getNamespaceFromPathModel true false ro autoloads relativeDir =
        none) ∧
      getNamespaceFromPathModel true true false autoloads relativeDir = none ∧
      getNamespaceFromPathModel true true true autoloads relativeDir =
        some "" := by
  refine ⟨fun hc ro => rfl, fun ro => rfl, rfl, ?_⟩
  unfold getNamespaceFromPathModel
  simp only [if_neg, Bool.true_eq_false, if_false]
  unfold psr4Core
  rw [psr4Outer_eq_foldl, psr4_fold_spec]
  have hsc : specChoice (matchingPrefixes autoloads relativeDir) = none := by
    rw [hm]; rfl
  unfold matchingPrefixes at hsc
  rw [hsc]
  rfl

/-- Witness for C6 amended at the concrete no-match configuration. -/
theorem psr4_failure_modes_witness :
    matchingPrefixes [("App\x5c", ["src"])] "lib" = [] ∧
      ((∀ hc ro, getNamespaceFromPathModel false hc ro [("App\x5c", ["src"])]
          "lib" = none) ∧
        (∀ ro, getNamespaceFromPathModel true false ro [("App\x5c", ["src"])]
          "lib" = none) ∧
        getNamespaceFromPathModel true true false [("App\x5c", ["src"])]
          "lib" = none ∧
        getNamespaceFromPathModel true true true [("App\x5c", ["src"])]
          "lib" = some "") :=
  ⟨by decide, psr4_failure_modes _ _ (by decide)⟩

/-! ## §5 / C10 — the `isIndexing` guard of `Indexer.scanWorkspace`

`scanWorkspace` (src/indexer.ts, lines 121–206) begins with
`if (this.isIndexing) return; this.isIndexing = true;` and clears the
guard only on its two normal exits: the early `files.length === 0` return
and the fall-through after the scan loop.  There is no `try/finally`, so
an exception escaping between the guard assignment and a normal exit
(e.g. from `findFiles`, the status-bar calls, or the awaited yields)
leaves `isIndexing === true` for the lifetime of the object.
`rebuildIndex` (lines 247–256) clears the four index maps and then awaits
`scanWorkspace`.  We model the control flow: the observable state is the
guard plus the list of files whose scan results are in the index;
`throwAt = some k` means an exception escapes after `k` files were
scanned, `none` means a normal run. -/

structure ScanGuardState where
  isIndexing : Bool
  indexed : List String
deriving DecidableEq, Repr

/-- One invocation of `scanWorkspace`. -/
def scanWorkspaceRun (s : ScanGuardState) (files : List String)
    (throwAt : Option Nat) : ScanGuardState :=
  if s.isIndexing then s
  else
    match throwAt with
    | some k => { isIndexing := true, indexed := s.indexed ++ files.take k }
    | none =>
      if files.length = 0 then { isIndexing := false, indexed := s.indexed }
      else { isIndexing := false, indexed := s.indexed ++ files }

/-- One invocation of `rebuildIndex`: clear all index maps, then scan. -/
def rebuildIndexRun (s : ScanGuardState) (files : List String)
    (throwAt : Option Nat) : ScanGuardState :=
  scanWorkspaceRun { isIndexing := s.isIndexing, indexed := [] } files throwAt

/-- **C10** (workspace-scan guard is not exception-safe).  (i) While the
guard is set, `scanWorkspace` returns immediately without scanning, so no
two scans overlap.  (ii) Both normal exits clear the guard.  (iii) If an
invocation exits by exception after setting the guard, the guard remains
set, and every subsequent `scanWorkspace` call returns immediately with
the state unchanged; in particular `rebuildIndex` then clears the whole
index and its inner `scanWorkspace` call scans nothing, leaving the index
empty. -/
theorem scanWorkspace_guard_not_exception_safe (s : ScanGuardState)
    (files : List String) (k : Nat) (hidle : s.isIndexing = false) :
    (∀ t f, s.isIndexing = true → scanWorkspaceRun s f t = s) ∧
      (scanWorkspaceRun s files none).isIndexing = false ∧
      (scanWorkspaceRun s files (some k)).isIndexing = true ∧
      (∀ f t, scanWorkspaceRun (scanWorkspaceRun s files (some k)) f t =
        scanWorkspaceRun s files (some k)) ∧
      (∀ f t, rebuildIndexRun (scanWorkspaceRun s files (some k)) f t =
        { isIndexing := true, indexed := [] }) := by
  refine ⟨?_, ?_, ?_, ?_, ?_⟩
  · intro t f hbusy
    simp [scanWorkspaceRun, hbusy]
  · by_cases hz : files.length = 0 <;> simp [scanWorkspaceRun, hidle, hz]
  · simp [scanWorkspaceRun, hidle]
  · intro f t
    simp [scanWorkspaceRun, hidle]
  · intro f t
    simp [rebuildIndexRun, scanWorkspaceRun, hidle]

/-- Witness for C10 at a concrete state and file list. -/
theorem scanWorkspace_guard_not_exception_safe_witness :
    (⟨false, []⟩ : ScanGuardState).isIndexing = false ∧
      ((∀ t f, (⟨false, []⟩ : ScanGuardState).isIndexing = true →
          scanWorkspaceRun ⟨false, []⟩ f t = ⟨false, []⟩) ∧
        (scanWorkspaceRun ⟨false, []⟩ ["a.php", "b.php"] none).isIndexing =
          false ∧
        (scanWorkspaceRun ⟨false, []⟩ ["a.php", "b.php"]
          (some 1)).isIndexing = true ∧
        (∀ f t, scanWorkspaceRun
            (scanWorkspaceRun ⟨false, []⟩ ["a.php", "b.php"] (some 1)) f t =
          scanWorkspaceRun ⟨false, []⟩ ["a.php", "b.php"] (some 1)) ∧
        (∀ f t, rebuildIndexRun
            (scanWorkspaceRun ⟨false, []⟩ ["a.php", "b.php"] (some 1)) f t =
          { isIndexing := true, indexed := [] })) :=
  ⟨rfl, scanWorkspace_guard_not_exception_safe _ ["a.php", "b.php"] 1 rfl⟩

/-! ## §4.2 Symbol Index — `Indexer` (src/indexer.ts)

State: four maps plus the indexed-file set.  The JS `Map`s are embedded
extensionally as functions (key ↦ value, absent key ↦ the empty default);
`removeFile` never *deletes* map keys (except inheritance entries), it
only filters values, and `updateIndexForFile` re-adds entries, so
extensional equality is the right notion of "identical index state" for
the definitions/methods/usage/inheritance data the claims speak about.
One reachability note: the source's inheritance-pruning guard
`classDefs && classDefs.every(d => d.path === uri.fsPath)` reads the
definitions map *after* it was filtered, so (`classDefs` being非-absent
for every class that ever got an inheritance entry) it holds exactly when
the filtered definition list is empty; we embed that. -/

structure SymbolDef where
  name : String
  path : String
  kind : String
  range : Option ERange
  parent : Option String
  fqn : Option String
deriving DecidableEq, Repr

structure InheritanceInfo where
  className : String
  extendsName : Option String
  implementsNames : List String
deriving DecidableEq, Repr

/-- A definition collected from one file, before the file path is
attached (the source stores `path: fsPath` verbatim at push time). -/
structure PreDef where
  name : String
  kind : String
  range : Option ERange
  parent : Option String
  fqn : Option String
deriving DecidableEq, Repr

def PreDef.toSymbolDef (fsPath : String) (p : PreDef) : SymbolDef :=
  ⟨p.name, fsPath, p.kind, p.range, p.parent, p.fqn⟩

@[ext]
structure IndexState where
  usage : String → String → Bool
  definitions : String → List SymbolDef
  methods : String → List SymbolDef
  inheritance : String → Option InheritanceInfo
  files : String → Bool

/-- `typeof node.name === 'string' ? node.name : node.name.name` — the
source would throw on a missing name; we default to `""`. -/
def classNodeName (n : Node) : String :=
  match n.get "name" with
  | some (.vstr s) => s
  | some (.vnode m) => (m.getStr "name").getD ""
  | _ => ""

/-- The `extends` target name as written (string, or a name node's
`name`); `none` when the field is absent or yields no string (the
source's remaining branch would dereference `undefined`). -/
def extendsNameOf (n : Node) : Option String :=
  match n.get "extends" with
  | some (.vstr s) => some s
  | some (.vnode m) => m.getStr "name"
  | _ => none

/-- The `implements` target names: strings are kept as-is, name nodes
contribute their `name` when it is a string (`impl.name || impl`), other
shapes are dropped (`if (implName)`). -/
def implementsNamesOf (n : Node) : List String :=
  match n.get "implements" with
  | some (.varr l) => l.filterMap (fun m => m.getStr "name")
  | some (.vstrs l) => l
  | _ => []

/-- `Array.isArray(node.body) ? node.body : node.body.children` with an
empty default — the member list of a class/interface/trait body and the
generic body recursion both use this shape. -/
def bodyMembers (n : Node) : List Node :=
  match n.getArr "body" with
  | some l => l
  | none =>
    match n.getNode "body" with
    | some b => (b.getArr "children").getD []
    | none => []


/-! Structural size of a tree, used as the fuel supplied at every
traversal entry point. -/
mutual
def nodeSize : Node → Nat
  | .mk _ _ fl => 1 + fieldsSize fl

def fieldsSize : List (String × FieldVal) → Nat
  | [] => 1
  | (_, v) :: rest => 1 + fvSize v + fieldsSize rest

def fvSize : FieldVal → Nat
  | .vnode n => 1 + nodeSize n
  | .varr l => 1 + nodesSize l
  | .vstr _ => 1
  | .vstrs _ => 1

def nodesSize : List Node → Nat
  | [] => 1
  | n :: rest => 1 + nodeSize n + nodesSize rest
end

/-! ### Fuel discipline for tree recursion

Every tree traversal below is structurally recursive on an explicit
`fuel : Nat`, decremented once per recursive call; with `fuel = 0` the
traversal contributes nothing.  Each entry point passes `sizeOf` of the
whole traversed structure as fuel.  This is always sufficient: every
recursive call descends into a strict sub-structure (a field's node or
node list, a list head or tail), whose `sizeOf` is strictly smaller, so
the recursion depth from a root `t` is bounded by `sizeOf t` and the
`fuel = 0` branch is never reached from an entry point (the entry fuel
`nodeSize t` strictly exceeds the size of every substructure).  The fuel is an
embedding device for termination only; it adds no behaviour. -/

/-- Accumulator of `updateIndexForFile`'s tree walk: the namespace
context and the collected symbols, definitions, method entries and
inheritance entries, in traversal order. -/
structure IdxCollect where
  ns : String
  symbols : List String
  defs : List PreDef
  methods : List (String × PreDef)
  inhs : List (String × InheritanceInfo)
deriving Repr

mutual
/-- One node of the `updateIndexForFile` walk (src/indexer.ts 264–383):
track namespace, record type definitions (with FQN from the tracked
namespace), inheritance edges, member methods, and usage symbols from
`usegroup` items and `name` nodes; then recurse into `children` and into
`body` (array or block children). -/
def idxNodeF : Nat → IdxCollect → Node → IdxCollect
  | 0, st, _ => st
  | fuel + 1, st, n =>
    let st :=
      if n.kind = "namespace" then
        { st with ns := (n.getStr "name").getD st.ns }
      else st
    let st :=
      if n.kind = "class" ∨ n.kind = "interface" ∨ n.kind = "trait" then
        let name := classNodeName n
        let fqn := if st.ns ≠ "" then st.ns ++ "\x5c" ++ name else name
        let inh : InheritanceInfo :=
          ⟨name, extendsNameOf n, implementsNamesOf n⟩
        let mdefs := (bodyMembers n).filterMap (fun b =>
          if b.kind = "method" then
            some (name ++ "::" ++ classNodeName b,
              (⟨classNodeName b, "method", b.loc.map locRange, some name,
                none⟩ : PreDef))
          else none)
        { st with
          symbols := st.symbols ++ [name]
          defs := st.defs ++
            [⟨name, n.kind, n.loc.map locRange, none, some fqn⟩]
          inhs := st.inhs ++ [(name, inh)]
          methods := st.methods ++ mdefs }
      else if n.kind = "usegroup" then
        let adds := ((n.getArr "items").getD []).filterMap
          (fun it => (it.getStr "name").map lastPart)
        { st with symbols := st.symbols ++ adds }
      else if n.kind = "name" then
        match n.getStr "name" with
        | some s => { st with symbols := st.symbols ++ [lastPart s] }
        | none => st
      else st
    let st := idxListF fuel st ((n.getArr "children").getD [])
    idxListF fuel st (bodyMembers n)

def idxListF : Nat → IdxCollect → List Node → IdxCollect
  | 0, st, _ => st
  | fuel + 1, st, l =>
    match l with
    | [] => st
    | n :: rest => idxListF fuel (idxNodeF fuel st n) rest
end

def idxCollectInit : IdxCollect := ⟨"", [], [], [], []⟩

/-- The pure collection performed by `updateIndexForFile` over
`ast.children`. -/
def collectFile (ast : Node) : IdxCollect :=
  idxListF (nodeSize ast) idxCollectInit ((ast.getArr "children").getD [])

/-- The value at the *last* `set` for a key, mirroring repeated
`Map.set` calls in traversal order. -/
def lastLookup {α : Type} : List (String × α) → String → Option α
  | [], _ => none
  | (k, v) :: rest, key =>
    match lastLookup rest key with
    | some r => some r
    | none => if k = key then some v else none

/-- `Indexer.removeFile` (src/indexer.ts 217–245): remove the uri from
every usage set, filter the file's entries out of definitions and
methods, drop inheritance entries whose remaining definitions are all
gone, and un-track the file. -/
def removeFilePure (uriStr fsPath : String) (s : IndexState) : IndexState :=
  let defsF : String → List SymbolDef :=
    fun n => (s.definitions n).filter (fun d => d.path ≠ fsPath)
  { usage := fun n u => if u = uriStr then false else s.usage n u
    definitions := defsF
    methods := fun q => (s.methods q).filter (fun d => d.path ≠ fsPath)
    inheritance := fun c =>
      match s.inheritance c with
      | none => none
      | some info => if (defsF c).isEmpty then none else some info
    files := fun u => if u = uriStr then false else s.files u }

/-- `Indexer.updateIndexForFile` (src/indexer.ts 258–392): first
`removeFile`, then walk the tree and append the collected definitions,
methods and inheritance entries and mark the usage index. -/
def updateIndexForFilePure (uriStr fsPath : String) (ast : Node)
    (s : IndexState) : IndexState :=
  let s := removeFilePure uriStr fsPath s
  let c := collectFile ast
  { usage := fun n u =>
      if c.symbols.contains n ∧ u = uriStr then true else s.usage n u
    definitions := fun nm => s.definitions nm ++
      ((c.defs.filter (fun d => d.name = nm)).map (PreDef.toSymbolDef fsPath))
    methods := fun q => s.methods q ++
      (((c.methods.filter (fun e => e.1 = q)).map Prod.snd).map
        (PreDef.toSymbolDef fsPath))
    inheritance := fun cn =>
      match lastLookup c.inhs cn with
      | some i => some i
      | none => s.inheritance cn
    files := s.files }

/-- `Indexer.scanFile` (src/indexer.ts 208–215): track the file, parse,
then update (whose leading `removeFile` immediately un-tracks it again). -/
def scanFilePure (uriStr fsPath : String) (ast : Node) (s : IndexState) :
    IndexState :=
  updateIndexForFilePure uriStr fsPath ast
    { s with files := fun u => if u = uriStr then true else s.files u }

theorem filter_path_toSymbolDef (f : String) (l : List PreDef) :
    (l.map (PreDef.toSymbolDef f)).filter (fun d => d.path ≠ f) = [] := by
  induction l with
  | nil => rfl
  | cons p t ih => simp [PreDef.toSymbolDef, List.filter_cons, ih]

theorem filter_path_idem (f : String) (l : List SymbolDef) :
    (l.filter (fun d => d.path ≠ f)).filter (fun d => d.path ≠ f) =
      l.filter (fun d => d.path ≠ f) := by
  induction l with
  | nil => rfl
  | cons d t ih =>
    by_cases h : d.path = f <;> simp [List.filter_cons, h, ih]

theorem scanFilePure_usage (u f : String) (a : Node) (s : IndexState)
    (n x : String) :
    (scanFilePure u f a s).usage n x =
      if (collectFile a).symbols.contains n ∧ x = u then true
      else if x = u then false else s.usage n x := rfl

theorem scanFilePure_definitions (u f : String) (a : Node) (s : IndexState)
    (nm : String) :
    (scanFilePure u f a s).definitions nm =
      (s.definitions nm).filter (fun d => d.path ≠ f) ++
        ((collectFile a).defs.filter (fun d => d.name = nm)).map
          (PreDef.toSymbolDef f) := rfl

theorem scanFilePure_methods (u f : String) (a : Node) (s : IndexState)
    (q : String) :
    (scanFilePure u f a s).methods q =
      (s.methods q).filter (fun d => d.path ≠ f) ++
        (((collectFile a).methods.filter (fun e => e.1 = q)).map
          Prod.snd).map (PreDef.toSymbolDef f) := rfl

theorem scanFilePure_inheritance (u f : String) (a : Node) (s : IndexState)
    (cn : String) :
    (scanFilePure u f a s).inheritance cn =
      match lastLookup (collectFile a).inhs cn with
      | some i => some i
      | none =>
        match s.inheritance cn with
        | none => none
        | some info =>
          if ((s.definitions cn).filter (fun d => d.path ≠ f)).isEmpty then
            none
          else some info := rfl

theorem scanFilePure_files (u f : String) (a : Node) (s : IndexState)
    (x : String) :
    (scanFilePure u f a s).files x =
      if x = u then false else s.files x := by
  show (if x = u then false else if x = u then true else s.files x) = _
  by_cases hx : x = u <;> simp [hx]

/-- **C4** (idempotence of re-scan).  Scanning the same unchanged file
(same uri, path and parse tree) twice leaves the index — usage index,
definitions, methods, inheritance edges, and the tracked-file set — in a
state identical to scanning it once: the leading `removeFile` of the
second scan removes exactly the entries the first scan attributed to this
path before they are re-added unchanged. -/
theorem scanFile_idempotent (uriStr fsPath : String) (ast : Node)
    (s : IndexState) :
    scanFilePure uriStr fsPath ast (scanFilePure uriStr fsPath ast s) =
      scanFilePure uriStr fsPath ast s := by
  refine IndexState.ext ?_ ?_ ?_ ?_ ?_
  · funext n x
    rw [scanFilePure_usage, scanFilePure_usage]
    by_cases hx : x = uriStr <;>
      by_cases hc : (collectFile ast).symbols.contains n <;>
        simp [hx, hc, scanFilePure_usage]
  · funext nm
    rw [scanFilePure_definitions, scanFilePure_definitions,
      List.filter_append, filter_path_idem, filter_path_toSymbolDef,
      List.append_nil]
  · funext q
    rw [scanFilePure_methods, scanFilePure_methods,
      List.filter_append, filter_path_idem, filter_path_toSymbolDef,
      List.append_nil]
  · funext cn
    rw [scanFilePure_inheritance, scanFilePure_inheritance]
    cases hll : lastLookup (collectFile ast).inhs cn with
    | some i => rfl
    | none =>
      rw [scanFilePure_definitions, List.filter_append, filter_path_idem,
        filter_path_toSymbolDef, List.append_nil]
      cases hsi : s.inheritance cn with
      | none => rfl
      | some info =>
        dsimp only
        by_cases he :
            ((s.definitions cn).filter (fun d => d.path ≠ fsPath)).isEmpty =
              true
        · rw [if_pos he]
        · rw [if_neg he]
          dsimp only
          rw [if_neg he]
  · funext x
    rw [scanFilePure_files, scanFilePure_files]
    by_cases hx : x = uriStr <;> simp [hx]

/-! ## §4.3/§4.4(a) — `findMethodUsages` (src/refactorPreview.ts 661–927)

The type-aware traversal behind the "Rename method" command
(`createMethodRenameEdit`).  Phase 1 collects the import table, phase 2
class property types, phase 3 walks the tree threading a per-scope map
from variable names to inferred types (one shared mutable map, copied at
function/method/closure boundaries), accepting or skipping each
`$recv->oldMethod(...)` call site. -/

/-- `getName` of the source: a string is itself; a node yields its
string `name`, else its `parts` joined with `\`; otherwise `null`. -/
def joinBk : List String → String
  | [] => ""
  | [s] => s
  | s :: rest => s ++ "\x5c" ++ joinBk rest

def getNameN (n : Node) : Option String :=
  match n.getStr "name" with
  | some s => some s
  | none =>
    match n.getStrs "parts" with
    | some ps => some (joinBk ps)
    | none => none

/-- `getName` applied to a field that may hold a string or a node. -/
def getNameFV : Option FieldVal → Option String
  | some (.vstr s) => some s
  | some (.vnode m) => getNameN m
  | _ => none

/-- `resolveType`: a `new` expression resolves to the name of what is
constructed; anything else to `null`. -/
def resolveTypeN (n : Node) : Option String :=
  if n.kind = "new" then getNameFV (n.get "what") else none

/-- The target-match test used everywhere in `findMethodUsages`:
`targetClassFqn.endsWith(resolvedType) || resolvedType === targetClassFqn
|| targetClassFqn.endsWith('\\' + resolvedType)`. -/
def matchesTarget (targetClassFqn resolvedType : String) : Bool :=
  strEnds targetClassFqn resolvedType || resolvedType == targetClassFqn ||
    strEnds targetClassFqn ("\x5c" ++ resolvedType)

/-- A variable scope: name ↦ inferred type (a JS `Map`). -/
def VarScope : Type := String → Option String

def scopeSet (sc : VarScope) (k v : String) : VarScope :=
  fun x => if x = k then some v else sc x

/-- Parameters of one `findMethodUsages` run, with the phase-1 import
table and phase-2 property-type table (association lists in insertion
order; repeated `Map.set` means the *last* entry for a key wins). -/
structure FmuCtx where
  target : String
  oldMethod : String
  newMethod : String
  imports : List (String × String)
  classProps : List (String × String)

/-! Phase-1 import collection: `usegroup` items register
`shortName ↦ FQN`; recursion through `children` only. -/
mutual
def fmuImpNodeF : Nat → List (String × String) → Node →
    List (String × String)
  | 0, acc, _ => acc
  | fuel + 1, acc, n =>
    let acc :=
      if n.kind = "usegroup" then
        match n.getArr "items" with
        | some items =>
          acc ++ items.filterMap (fun it =>
            match getNameFV (it.get "name") with
            | some fqn =>
              if fqn ≠ "" ∧ lastPart fqn ≠ "" then some (lastPart fqn, fqn)
              else none
            | none => none)
        | none => acc
      else acc
    fmuImpListF fuel acc ((n.getArr "children").getD [])

def fmuImpListF : Nat → List (String × String) → List Node →
    List (String × String)
  | 0, acc, _ => acc
  | fuel + 1, acc, l =>
    match l with
    | [] => acc
    | n :: rest => fmuImpListF fuel (fmuImpNodeF fuel acc n) rest
end

/-! Phase-2 property-type collection: inside every `class` body array,
`propertystatement` members map each property name to the member's type
(resolved through the import table); recursion through `children` only. -/
mutual
def fmuPropsNodeF (imports : List (String × String)) :
    Nat → List (String × String) → Node → List (String × String)
  | 0, acc, _ => acc
  | fuel + 1, acc, n =>
    let acc :=
      if n.kind = "class" then
        match n.getArr "body" with
        | some members =>
          acc ++ members.flatMap (fun member =>
            if member.kind = "propertystatement" then
              ((member.getArr "properties").getD []).filterMap (fun prop =>
                match getNameN prop with
                | some pn =>
                  if pn ≠ "" ∧ (member.get "type").isSome then
                    match getNameFV (member.get "type") with
                    | some tn =>
                      if tn ≠ "" then
                        some (pn, (lastLookup imports tn).getD tn)
                      else none
                    | none => none
                  else none
                | none => none)
            else [])
        | none => acc
      else acc
    fmuPropsListF imports fuel acc ((n.getArr "children").getD [])

def fmuPropsListF (imports : List (String × String)) :
    Nat → List (String × String) → List Node → List (String × String)
  | 0, acc, _ => acc
  | fuel + 1, acc, l =>
    match l with
    | [] => acc
    | n :: rest =>
      fmuPropsListF imports fuel (fmuPropsNodeF imports fuel acc n) rest
end

/-- Scope seeding at a function/method/closure boundary: each argument
with a type hint whose resolved type matches the target binds the
argument name to the target FQN (in a *copy* of the enclosing scope). -/
def fmuSeedArgs (ctx : FmuCtx) (scope : VarScope) (n : Node) : VarScope :=
  ((n.getArr "arguments").getD []).foldl (fun sc arg =>
    match arg.get "type" with
    | some _ =>
      match getNameFV (arg.get "type"), getNameFV (arg.get "name") with
      | some tn, some vn =>
        if tn ≠ "" ∧ vn ≠ "" then
          if matchesTarget ctx.target ((lastLookup ctx.imports tn).getD tn)
          then scopeSet sc vn ctx.target
          else sc
        else sc
      | _, _ => sc
    | none => sc) scope

/-- Assignment tracking (`$v = new T()`, `$v = $w`,
`$v = $this->prop`): possibly extends the *shared* scope. -/
def fmuAssign (ctx : FmuCtx) (scope : VarScope) (n : Node) : VarScope :=
  if n.kind = "assign" then
    match n.getNode "left", n.getNode "right" with
    | some left, some right =>
      if left.kind = "variable" then
        match getNameN left with
        | some vn =>
          if vn ≠ "" then
            match resolveTypeN right with
            | some t =>
              if t ≠ "" then
                if matchesTarget ctx.target
                    ((lastLookup ctx.imports t).getD t) then
                  scopeSet scope vn ctx.target
                else scope
              else scope
            | none =>
              if right.kind = "variable" then
                match getNameN right with
                | some sv =>
                  match scope sv with
                  | some ty => scopeSet scope vn ty
                  | none => scope
                | none => scope
              else if right.kind = "propertylookup" then
                match right.getNode "what" with
                | some w =>
                  if w.kind = "variable" ∧ getNameN w = some "this" then
                    match getNameFV (right.get "offset") with
                    | some pn =>
                      if pn ≠ "" then
                        match lastLookup ctx.classProps pn with
                        | some pt =>
                          if matchesTarget ctx.target pt then
                            scopeSet scope vn ctx.target
                          else scope
                        | none => scope
                      else scope
                    | none => scope
                  else scope
                | none => scope
              else scope
          else scope
        | none => scope
      else scope
    | _, _ => scope
  else scope

/-- Receiver analysis for `$recv->oldMethod(...)` (source cases: `$this`
— accepted unconditionally; tracked variable equal to the target FQN;
`$this->prop` with matching property type; fresh `new T()`; method
chains and anything else rejected). -/
def fmuReceiverValid (ctx : FmuCtx) (scope : VarScope) (pl : Node) : Bool :=
  match pl.getNode "what" with
  | some w =>
    if w.kind = "variable" then
      match getNameN w with
      | some vn =>
        if vn = "this" then true
        else if vn ≠ "" then
          match scope vn with
          | some ty => ty == ctx.target
          | none => false
        else false
      | none => false
    else if w.kind = "propertylookup" then
      match w.getNode "what" with
      | some iw =>
        if iw.kind = "variable" ∧ getNameN iw = some "this" then
          match getNameFV (w.get "offset") with
          | some pn =>
            if pn ≠ "" then
              match lastLookup ctx.classProps pn with
              | some pt => matchesTarget ctx.target pt
              | none => false
            else false
          | none => false
        else false
      | none => false
    else if w.kind = "new" then
      match resolveTypeN w with
      | some t =>
        if t ≠ "" then
          matchesTarget ctx.target ((lastLookup ctx.imports t).getD t)
        else false
      | none => false
    else false
  | none => false

/-- Whether a node is an accepted rename candidate: a `call` whose `what`
is a `propertylookup` on `oldMethod` with a valid receiver. -/
def fmuCallValid (ctx : FmuCtx) (scope : VarScope) (n : Node) : Bool :=
  if n.kind = "call" then
    match n.getNode "what" with
    | some pl =>
      if pl.kind = "propertylookup" then
        if getNameFV (pl.get "offset") = some ctx.oldMethod then
          fmuReceiverValid ctx scope pl
        else false
      else false
    | none => false
  else false

/-- The replacement range a call node *could* contribute: the location
of the `propertylookup` offset identifier, when the method name is
`oldMethod` and a location exists. -/
def fmuCallCand (old : String) (n : Node) : List ERange :=
  if n.kind = "call" then
    match n.getNode "what" with
    | some pl =>
      if pl.kind = "propertylookup" then
        if getNameFV (pl.get "offset") = some old then
          match pl.getNode "offset" with
          | some off =>
            match off.loc with
            | some lc => [locRange lc]
            | none => []
          | none => []
        else []
      else []
    | none => []
  else []

/-- The edit a node contributes: the candidate range replaced by the new
name, when the call is accepted. -/
def fmuCallEdit (ctx : FmuCtx) (scope : VarScope) (n : Node) :
    List TextEdit :=
  if fmuCallValid ctx scope n then
    (fmuCallCand ctx.oldMethod n).map (fun r => ⟨r, ctx.newMethod⟩)
  else []

/-- Keys skipped by `findMethodUsages`'s generic recursion:
`loc`, `kind`, `name`, `what`, `type`, `body`, `children`. -/
def fmuSkipKey (k : String) : Bool :=
  k == "loc" || k == "kind" || k == "name" || k == "what" || k == "type" ||
    k == "body" || k == "children"

/-! Phase 3: the type-tracking traversal.  The `scope` map is shared by
reference in the source, so its updates thread sequentially through
sibling statements and explicit class/namespace recursion; at
function/method/closure nodes a copy is seeded with parameter types and
the node's other fields are not visited (`continue`).  For a `class` the
body array is visited explicitly, for a `namespace` the children; the
generic key loop then visits every remaining node-valued or
node-array-valued field whose (first) node has a non-empty `kind`. -/
mutual
def fmuGoNodeF (ctx : FmuCtx) : Nat → VarScope → Node →
    VarScope × List TextEdit
  | 0, scope, _ => (scope, [])
  | fuel + 1, scope, n =>
    if n.kind = "function" ∨ n.kind = "method" ∨ n.kind = "closure" then
      (scope, (fmuGoListF ctx fuel (fmuSeedArgs ctx scope n)
        (bodyMembers n)).2)
    else
      let scope := fmuAssign ctx scope n
      let callEs := fmuCallEdit ctx scope n
      let r4 :=
        if n.kind = "class" then
          fmuGoListF ctx fuel scope ((n.getArr "body").getD [])
        else (scope, [])
      let r5 :=
        if n.kind = "namespace" then
          fmuGoListF ctx fuel r4.1 ((n.getArr "children").getD [])
        else (r4.1, [])
      let r6 := fmuGoFieldsF ctx fuel r5.1 n.fields
      (r6.1, callEs ++ r4.2 ++ r5.2 ++ r6.2)

def fmuGoListF (ctx : FmuCtx) : Nat → VarScope → List Node →
    VarScope × List TextEdit
  | 0, scope, _ => (scope, [])
  | fuel + 1, scope, l =>
    match l with
    | [] => (scope, [])
    | n :: rest =>
      let r1 := fmuGoNodeF ctx fuel scope n
      let r2 := fmuGoListF ctx fuel r1.1 rest
      (r2.1, r1.2 ++ r2.2)

def fmuGoFieldsF (ctx : FmuCtx) : Nat → VarScope →
    List (String × FieldVal) → VarScope × List TextEdit
  | 0, scope, _ => (scope, [])
  | fuel + 1, scope, fl =>
    match fl with
    | [] => (scope, [])
    | (k, v) :: rest =>
      let r1 := fmuGoFVF ctx fuel scope k v
      let r2 := fmuGoFieldsF ctx fuel r1.1 rest
      (r2.1, r1.2 ++ r2.2)

def fmuGoFVF (ctx : FmuCtx) : Nat → VarScope → String → FieldVal →
    VarScope × List TextEdit
  | 0, scope, _, _ => (scope, [])
  | fuel + 1, scope, k, v =>
    if fmuSkipKey k then (scope, [])
    else
      match v with
      | .varr [] => (scope, [])
      | .varr (h :: t) =>
        if h.kind ≠ "" then fmuGoListF ctx fuel scope (h :: t)
        else (scope, [])
      | .vnode m =>
        if m.kind ≠ "" then fmuGoListF ctx fuel scope [m] else (scope, [])
      | .vstr _ => (scope, [])
      | .vstrs _ => (scope, [])
end

/-- `findMethodUsages(ast, targetClassFqn, oldMethod, newMethod, …)`:
collect imports (phase 1) and class property types (phase 2), then run
the phase-3 traversal over `ast.children` with an empty scope and return
its edits. -/
def findMethodUsagesModel (ast : Node)
    (targetClassFqn oldMethod newMethod : String) : List TextEdit :=
  let kids := (ast.getArr "children").getD []
  let imports := fmuImpListF (nodeSize ast) [] kids
  let props := fmuPropsListF imports (nodeSize ast) [] kids
  (fmuGoListF ⟨targetClassFqn, oldMethod, newMethod, imports, props⟩
    (nodeSize ast) (fun _ => none) kids).2

/-! The candidate collector: the same traversal shape, recording the
offset-identifier range of *every* `->oldMethod(...)` call node visited,
accepted or not.  The edits of the phase-3 traversal are a sublist of
it. -/
mutual
def fmuColNodeF (old : String) : Nat → Node → List ERange
  | 0, _ => []
  | fuel + 1, n =>
    if n.kind = "function" ∨ n.kind = "method" ∨ n.kind = "closure" then
      fmuColListF old fuel (bodyMembers n)
    else
      fmuCallCand old n ++
        (if n.kind = "class" then
          fmuColListF old fuel ((n.getArr "body").getD [])
          else []) ++
        (if n.kind = "namespace" then
          fmuColListF old fuel ((n.getArr "children").getD [])
          else []) ++
        fmuColFieldsF old fuel n.fields

def fmuColListF (old : String) : Nat → List Node → List ERange
  | 0, _ => []
  | fuel + 1, l =>
    match l with
    | [] => []
    | n :: rest => fmuColNodeF old fuel n ++ fmuColListF old fuel rest

def fmuColFieldsF (old : String) : Nat → List (String × FieldVal) →
    List ERange
  | 0, _ => []
  | fuel + 1, fl =>
    match fl with
    | [] => []
    | (k, v) :: rest =>
      fmuColFVF old fuel k v ++ fmuColFieldsF old fuel rest

def fmuColFVF (old : String) : Nat → String → FieldVal → List ERange
  | 0, _, _ => []
  | fuel + 1, k, v =>
    if fmuSkipKey k then []
    else
      match v with
      | .varr [] => []
      | .varr (h :: t) =>
        if h.kind ≠ "" then fmuColListF old fuel (h :: t) else []
      | .vnode m => if m.kind ≠ "" then fmuColListF old fuel [m] else []
      | .vstr _ => []
      | .vstrs _ => []
end

/-- All candidate call-site ranges of a file for `oldMethod`. -/
def fmuCandRanges (ast : Node) (old : String) : List ERange :=
  fmuColListF old (nodeSize ast) ((ast.getArr "children").getD [])

theorem fmuCallEdit_ranges_sublist (ctx : FmuCtx) (scope : VarScope)
    (n : Node) :
    List.Sublist ((fmuCallEdit ctx scope n).map TextEdit.range)
      (fmuCallCand ctx.oldMethod n) := by
  unfold fmuCallEdit
  by_cases hv : fmuCallValid ctx scope n = true
  · rw [if_pos hv, List.map_map]
    have hid : (TextEdit.range ∘ fun r => (⟨r, ctx.newMethod⟩ : TextEdit)) =
        id := rfl
    rw [hid, List.map_id]
  · rw [if_neg hv]
    exact List.nil_sublist _

theorem fmuGo_ranges_sublist (ctx : FmuCtx) (fuel : Nat) :
    (∀ (scope : VarScope) (n : Node),
      List.Sublist ((fmuGoNodeF ctx fuel scope n).2.map TextEdit.range)
        (fmuColNodeF ctx.oldMethod fuel n)) ∧
    (∀ (scope : VarScope) (l : List Node),
      List.Sublist ((fmuGoListF ctx fuel scope l).2.map TextEdit.range)
        (fmuColListF ctx.oldMethod fuel l)) ∧
    (∀ (scope : VarScope) (fl : List (String × FieldVal)),
      List.Sublist ((fmuGoFieldsF ctx fuel scope fl).2.map TextEdit.range)
        (fmuColFieldsF ctx.oldMethod fuel fl)) ∧
    (∀ (scope : VarScope) (k : String) (v : FieldVal),
      List.Sublist ((fmuGoFVF ctx fuel scope k v).2.map TextEdit.range)
        (fmuColFVF ctx.oldMethod fuel k v)) := by
  induction fuel with
  | zero =>
    refine ⟨?_, ?_, ?_, ?_⟩ <;> intros <;>
      simp [fmuGoNodeF, fmuGoListF, fmuGoFieldsF, fmuGoFVF, fmuColNodeF,
        fmuColListF, fmuColFieldsF, fmuColFVF]
  | succ fuel ih =>
    obtain ⟨ihN, ihL, ihF, ihV⟩ := ih
    refine ⟨?_, ?_, ?_, ?_⟩
    · intro scope n
      rw [fmuGoNodeF, fmuColNodeF]
      by_cases hf : (n.kind = "function" ∨ n.kind = "method" ∨
          n.kind = "closure")
      · rw [if_pos hf, if_pos hf]
        exact ihL (fmuSeedArgs ctx scope n) (bodyMembers n)
      · rw [if_neg hf, if_neg hf]
        dsimp only
        rw [List.map_append, List.map_append, List.map_append]
        refine List.Sublist.append (List.Sublist.append
          (List.Sublist.append ?_ ?_) ?_) ?_
        · exact fmuCallEdit_ranges_sublist ctx (fmuAssign ctx scope n) n
        · by_cases hc : n.kind = "class"
          · rw [if_pos hc, if_pos hc]
            exact ihL (fmuAssign ctx scope n) ((n.getArr "body").getD [])
          · rw [if_neg hc, if_neg hc]
            exact List.nil_sublist _
        · by_cases hn : n.kind = "namespace"
          · rw [if_pos hn, if_pos hn]
            exact ihL _ ((n.getArr "children").getD [])
          · rw [if_neg hn, if_neg hn]
            exact List.nil_sublist _
        · exact ihF _ n.fields
    · intro scope l
      rw [fmuGoListF.eq_def, fmuColListF.eq_def]
      match l with
      | [] => exact List.nil_sublist _
      | n :: rest =>
        dsimp only
        rw [List.map_append]
        exact List.Sublist.append (ihN scope n)
          (ihL (fmuGoNodeF ctx fuel scope n).1 rest)
    · intro scope fl
      rw [fmuGoFieldsF.eq_def, fmuColFieldsF.eq_def]
      match fl with
      | [] => exact List.nil_sublist _
      | (k, v) :: rest =>
        dsimp only
        rw [List.map_append]
        exact List.Sublist.append (ihV scope k v)
          (ihF (fmuGoFVF ctx fuel scope k v).1 rest)
    · intro scope k v
      rw [fmuGoFVF.eq_def, fmuColFVF.eq_def]
      dsimp only
      by_cases hk : fmuSkipKey k = true
      · rw [if_pos hk, if_pos hk]
        exact List.nil_sublist _
      · rw [if_neg hk, if_neg hk]
        match v with
        | .vstr s => exact List.nil_sublist _
        | .vstrs ss => exact List.nil_sublist _
        | .varr [] => exact List.nil_sublist _
        | .varr (h :: t) =>
          dsimp only
          by_cases hh : h.kind ≠ ""
          · rw [if_pos hh, if_pos hh]
            exact ihL scope (h :: t)
          · rw [if_neg hh, if_neg hh]
            exact List.nil_sublist _
        | .vnode m =>
          dsimp only
          by_cases hm : m.kind ≠ ""
          · rw [if_pos hm, if_pos hm]
            exact ihL scope [m]
          · rw [if_neg hm, if_neg hm]
            exact List.nil_sublist _

/-- The amended non-overlap statement's backbone: the edit ranges of
`findMethodUsages`, in order, form a sublist of the candidate ranges. -/
theorem findMethodUsages_ranges_sublist (ast : Node)
    (target old new : String) :
    List.Sublist ((findMethodUsagesModel ast target old new).map
      TextEdit.range) (fmuCandRanges ast old) := by
  unfold findMethodUsagesModel fmuCandRanges
  exact (fmuGo_ranges_sublist _ _).2.1 _ _

/-- **C3 amended, method-rename half.**  For a method-rename invocation,
whenever the candidate call-site identifier ranges of a file are pairwise
disjoint — which parser locations of distinct identifier occurrences are —
the edit set `findMethodUsages` produces for that file contains no two
operations with overlapping ranges. -/
theorem findMethodUsages_nonoverlap (ast : Node) (target old new : String)
    (h : List.Pairwise (fun a b => rangesDisjoint a b = true)
      (fmuCandRanges ast old)) :
    List.Pairwise (fun a b => rangesDisjoint a.range b.range = true)
      (findMethodUsagesModel ast target old new) := by
  have hs := findMethodUsages_ranges_sublist ast target old new
  have hp := List.Pairwise.sublist hs h
  rw [List.pairwise_map] at hp
  exact hp

/-- If a file has no `->oldMethod` candidate call site at all, the
traversal produces no edits. -/
theorem findMethodUsages_nil_of_no_candidates (ast : Node)
    (target old new : String) (h : fmuCandRanges ast old = []) :
    findMethodUsagesModel ast target old new = [] := by
  have hs := findMethodUsages_ranges_sublist ast target old new
  rw [h, List.sublist_nil, List.map_eq_nil_iff] at hs
  exact hs

/-! Concrete AST values.  Each mirrors a small PHP file, hand-translated
to the `php-parser` node shapes the source consumes; the corresponding
PHP source is given in the comments. -/

/-- An identifier node `{kind:'identifier', name, loc}`. -/
def idNode (name : String) (lc : Loc) : Node :=
  .mk "identifier" (some lc) [("name", .vstr name)]

/-- A variable node `{kind:'variable', name}` (php-parser stores `$x`'s
name as `x`, and `$this`'s as `this`). -/
def varNode (name : String) : Node :=
  .mk "variable" none [("name", .vstr name)]

/-- A method call `$this->m(...)` : `{kind:'call', what:{kind:
'propertylookup', what:$this, offset:identifier m@lc}, arguments:[]}`. -/
def callThis (m : String) (lc : Loc) : Node :=
  .mk "call" none
    [("what", .vnode (.mk "propertylookup" none
        [("what", .vnode (varNode "this")),
          ("offset", .vnode (idNode m lc))])),
      ("arguments", .varr [])]

/-- `{kind:'expressionstatement', expression:e}`. -/
def exprStmt (e : Node) : Node :=
  .mk "expressionstatement" none [("expression", .vnode e)]

/-- `{kind:'return', expr:e}`. -/
def returnStmt (e : Node) : Node :=
  .mk "return" none [("expr", .vnode e)]

/-- A block node `{kind:'block', children:…}` (a method body). -/
def blockNode (stmts : List Node) : Node :=
  .mk "block" none [("children", .varr stmts)]

/-- A program root `{kind:'program', children:…}`. -/
def programNode (stmts : List Node) : Node :=
  .mk "program" none [("children", .varr stmts)]

/-- `test-rename/ClassAwareTest.php` of the repository (line/column
positions from the file; columns 0-based, lines 1-based):

```php
<?php                                         // line 1
namespace App\Test;                           // line 3
class UserController {                        // line 5
    public function handle() {                // line 6
        return 'user handle';                 // line 7
    }
    public function process() {               // line 10
        // $this should only rename in UserController
        return $this->handle();               // line 12, cols 22-28
    }
}
class OrderController {                       // line 16
    public function handle() {                // line 17
        return 'order handle';                // line 18
    }
    public function execute() {               // line 21
        // $this should only rename in OrderController, NOT affected
        return $this->handle();               // line 23, cols 22-28
    }
}
``` -/
def classAwareAst : Node :=
  programNode
    [.mk "namespace" (some ⟨3, 0, 25, 0⟩)
      [("name", .vstr "App\x5cTest"),
        ("children", .varr
          [.mk "class" (some ⟨5, 0, 14, 1⟩)
            [("name", .vnode (idNode "UserController" ⟨5, 6, 5, 20⟩)),
              ("body", .varr
                [.mk "method" (some ⟨6, 4, 8, 5⟩)
                  [("name", .vnode (idNode "handle" ⟨6, 20, 6, 26⟩)),
                    ("arguments", .varr []),
                    ("body", .vnode (blockNode
                      [returnStmt (.mk "string" (some ⟨7, 15, 7, 28⟩) [])]))],
                  .mk "method" (some ⟨10, 4, 13, 5⟩)
                  [("name", .vnode (idNode "process" ⟨10, 20, 10, 27⟩)),
                    ("arguments", .varr []),
                    ("body", .vnode (blockNode
                      [returnStmt (callThis "handle" ⟨12, 22, 12, 28⟩)]))]])],
            .mk "class" (some ⟨16, 0, 25, 1⟩)
            [("name", .vnode (idNode "OrderController" ⟨16, 6, 16, 21⟩)),
              ("body", .varr
                [.mk "method" (some ⟨17, 4, 19, 5⟩)
                  [("name", .vnode (idNode "handle" ⟨17, 20, 17, 26⟩)),
                    ("arguments", .varr []),
                    ("body", .vnode (blockNode
                      [returnStmt
                        (.mk "string" (some ⟨18, 15, 18, 29⟩) [])]))],
                  .mk "method" (some ⟨21, 4, 24, 5⟩)
                  [("name", .vnode (idNode "execute" ⟨21, 20, 21, 27⟩)),
                    ("arguments", .varr []),
                    ("body", .vnode (blockNode
                      [returnStmt
                        (callThis "handle" ⟨23, 22, 23, 28⟩)]))]])]])]]

/-- **C1 failing-input evaluation.**  Renaming
`App\Test\UserController::handle` over `ClassAwareTest.php`:
`findMethodUsages` accepts *both* `$this->handle()` call sites — the one
in `UserController::process` (file line 12) *and* the one in
`OrderController::execute` (file line 23, editor line 22) — because its
`$this` receiver case sets `valid = true` unconditionally, with no check
that the lexically enclosing class is the target class.  The claim (and
§4.3 of the spec, and the comments in the test file itself) require the
second call site to be left alone. -/
theorem findMethodUsages_this_ignores_enclosing_class :
    findMethodUsagesModel classAwareAst "App\x5cTest\x5cUserController"
        "handle" "handleRenamed" =
      [⟨⟨⟨11, 22⟩, ⟨11, 28⟩⟩, "handleRenamed"⟩,
        ⟨⟨⟨22, 22⟩, ⟨22, 28⟩⟩, "handleRenamed"⟩] := by
  decide

/-- Witness for the amended C3 statement at `ClassAwareTest.php`: its two
candidate call-site ranges are disjoint, and the produced edit set is
pairwise non-overlapping. -/
theorem findMethodUsages_nonoverlap_witness :
    List.Pairwise (fun a b => rangesDisjoint a b = true)
        (fmuCandRanges classAwareAst "handle") ∧
      List.Pairwise (fun a b => rangesDisjoint a.range b.range = true)
        (findMethodUsagesModel classAwareAst "App\x5cTest\x5cUserController"
          "handle" "handleRenamed") :=
  ⟨by decide, findMethodUsages_nonoverlap _ _ _ _ (by decide)⟩

/-! ## §4.4(a) — the textual pre-filter of `createMethodRenameEdit`
(src/refactorPreview.ts 625–653): only files whose text contains
`->oldName` or `::oldName` are parsed and analysed. -/

/-- `txt.includes('->' + oldName) || txt.includes('::' + oldName)`. -/
def prefilterHit (txt old : String) : Bool :=
  strContainsSub txt ("->" ++ old) || strContainsSub txt ("::" ++ old)

/-- The per-file edit lists of the scan loop with the pre-filter: a file
not passing the textual check is never parsed, contributing no edits. -/
def scanWithPrefilterModel (files : List (String × Node))
    (target old new : String) : List (List TextEdit) :=
  files.map (fun f =>
    if prefilterHit f.1 old then findMethodUsagesModel f.2 target old new
    else [])

/-- The per-file edit lists without the pre-filter (AST analysis runs on
every file). -/
def scanAllModel (files : List (String × Node)) (target old new : String) :
    List (List TextEdit) :=
  files.map (fun f => findMethodUsagesModel f.2 target old new)

/-- The file `<?php␤$this -> handle();␤` — a legal PHP call written with
spaces around the arrow.  php-parser yields an `expressionstatement`
whose expression is the `$this->handle()` call with the `handle`
identifier at line 2, columns 9–15. -/
def spacedCallContent : String := "<?php\n$this -> handle();\n"

def spacedCallAst : Node :=
  programNode [exprStmt (callThis "handle" ⟨2, 9, 2, 15⟩)]

/-- **C9 counterexample.**  The pre-filter is not edit-preserving: for
the file `$this -> handle();` (whitespace around `->`), the text contains
neither `->handle` nor `::handle`, so the pre-filtered scan skips the
file and produces no edit, while the full AST analysis accepts the call
site (receiver `$this`) and renames it. -/
theorem prefilter_drops_spaced_arrow_call :
    prefilterHit spacedCallContent "handle" = false ∧
      findMethodUsagesModel spacedCallAst "App\x5cC" "handle" "handle2" =
        [⟨⟨⟨1, 9⟩, ⟨1, 15⟩⟩, "handle2"⟩] ∧
      scanWithPrefilterModel [(spacedCallContent, spacedCallAst)] "App\x5cC"
          "handle" "handle2" ≠
        scanAllModel [(spacedCallContent, spacedCallAst)] "App\x5cC"
          "handle" "handle2" := by
  refine ⟨by decide, by decide, by decide⟩

/-- **C9 amended.**  The pre-filter never drops an edit *provided* every
file in which the analysis would find a candidate `->oldName(...)` call
site textually contains `->oldName` or `::oldName` — i.e. provided no
accepted call site is written with whitespace (or other separators)
between the arrow and the method name.  Under that hypothesis the
pre-filtered scan produces exactly the same per-file edit lists as
running the AST analysis on every file. -/
theorem prefilter_preserves_edits (files : List (String × Node))
    (target old new : String)
    (h : ∀ p ∈ files, fmuCandRanges p.2 old ≠ [] →
      prefilterHit p.1 old = true) :
    scanWithPrefilterModel files target old new =
      scanAllModel files target old new := by
  unfold scanWithPrefilterModel scanAllModel
  refine List.map_congr_left ?_
  intro p hp
  by_cases hpf : prefilterHit p.1 old = true
  · rw [if_pos hpf]
  · rw [if_neg hpf]
    have hc : fmuCandRanges p.2 old = [] := by
      by_contra hne
      exact hpf (h p hp hne)
    exact (findMethodUsages_nil_of_no_candidates _ _ _ _ hc).symm

/-- The file `<?php␤$this->handle();␤` — the same call written without
whitespace; the `handle` identifier sits at line 2, columns 7–13. -/
def tightCallContent : String := "<?php\n$this->handle();\n"

def tightCallAst : Node :=
  programNode [exprStmt (callThis "handle" ⟨2, 7, 2, 13⟩)]

/-- Witness for C9 amended at a concrete one-file workspace whose single
call site is written `->handle` (no whitespace): the hypothesis holds
and the pre-filtered scan equals the full scan. -/
theorem prefilter_preserves_edits_witness :
    (∀ p ∈ [(tightCallContent, tightCallAst)], fmuCandRanges p.2 "handle" ≠
        [] → prefilterHit p.1 "handle" = true) ∧
      scanWithPrefilterModel [(tightCallContent, tightCallAst)] "App\x5cC"
          "handle" "handle2" =
        scanAllModel [(tightCallContent, tightCallAst)] "App\x5cC"
          "handle" "handle2" :=
  ⟨by decide, prefilter_preserves_edits _ _ _ _ (by decide)⟩

/-! ## §4.4(c) — `findAndUpdateImports` (src/refactorPreview.ts 290–560)

The file-move edit planner for one referencing file.  Pass 0 analyses the
top-level children only (namespace, use statements); pass 1 inserts
`use newFqn;` for implicit same-namespace usage; pass 2 rewrites or
deletes matching use statements; pass 3 renames short-name usages via a
generic-key traversal.  All edits accumulate into one list, returned as
`null` when empty. -/

/-- `fqn.substring(0, fqn.lastIndexOf('\\'))` — the namespace part; the
empty string when there is no backslash (`substring(0, -1)` clamps the
negative index to 0). -/
def nsPart (s : String) : String :=
  match (splitChar '\x5c' s.data).dropLast with
  | [] => ""
  | ps => joinBk (ps.map fun l => (⟨l⟩ : String))

/-- Raw `.name` access on a field value: only an object with a string
`name` property yields a string (a string field has no `.name`, and a
node-valued `name` is never `===` a string). -/
def fvDotName : Option FieldVal → Option String
  | some (.vnode m) => m.getStr "name"
  | _ => none

/-- `typeof item.name === 'string' ? item.name : item.name.name`. -/
def useItemName (it : Node) : Option String :=
  match it.get "name" with
  | some (.vstr s) => some s
  | some (.vnode m) => m.getStr "name"
  | _ => none

/-- Pass-0 import test: `useName === oldFqn || (oldFqn &&
useName.endsWith('\\' + oldFqn.split('\\').pop()))`. -/
def importMatchesOld (oldFqn : String) (it : Node) : Bool :=
  match useItemName it with
  | some u =>
    u == oldFqn || (oldFqn != "" && strEnds u ("\x5c" ++ lastPart oldFqn))
  | none => false

/-- `node.body` normalised to a statement list:
`Array.isArray(node.body) ? node.body : (node.body.children || [])`,
and `[]` when `body` is absent. -/
def bodyList (n : Node) : List Node :=
  match n.get "body" with
  | some (.varr l) => l
  | some (.vnode b) => (b.getArr "children").getD []
  | _ => []

/-- Scan `content`'s lines from index `i` for the first line containing a
semicolon (the loop locating the end of the namespace declaration). -/
def findSemiFrom : Nat → List String → Option Nat
  | _, [] => none
  | i, l :: rest =>
    if strContainsSub l ";" then some i else findSemiFrom (i + 1) rest

/-- The `namespaceEnd` computed for a namespace node: the line after the
first line (at or below the declaration's 1-based start line minus one)
containing `;`; when no such line exists the pre-loop value
`Position(node.loc.start.line, 0)` survives. -/
def namespaceEndOf (content : String) (lc : Loc) : EPos :=
  let lines := (splitChar '\n' content.data).map fun l => (⟨l⟩ : String)
  let startLine := lc.sline - 1
  match findSemiFrom startLine (lines.drop startLine) with
  | some i => ⟨i + 1, 0⟩
  | none => ⟨lc.sline, 0⟩

/-- The pass-0 analysis state of `findAndUpdateImports`. -/
structure FauiAnalysis where
  currentFileNamespace : Option String
  hasExistingImport : Bool
  lastUseStatementEnd : Option EPos
  namespaceEnd : Option EPos
deriving DecidableEq, Repr

/-- Pass 0: a single non-recursive loop over `ast.children`. -/
def fauiPass0 (content oldFqn : String) :
    List Node → FauiAnalysis → FauiAnalysis
  | [], a => a
  | n :: rest, a =>
    let a :=
      if n.kind = "namespace" then
        { a with
          currentFileNamespace := n.getStr "name",
          namespaceEnd :=
            match n.loc with
            | some lc => some (namespaceEndOf content lc)
            | none => a.namespaceEnd }
      else a
    let a :=
      if n.kind = "usegroup" ∧ (n.getArr "items").isSome then
        let a :=
          match n.loc with
          | some lc => { a with lastUseStatementEnd := some ⟨lc.eline, 0⟩ }
          | none => a
        if ((n.getArr "items").getD []).any (importMatchesOld oldFqn) then
          { a with hasExistingImport := true }
        else a
      else a
    fauiPass0 content oldFqn rest a

/-- The five syntactic usage patterns tested by `checkUsage` on one node
(instantiation, parameter type hints, return type, extends/implements,
static lookup). -/
def cuMatch (simple : String) (n : Node) : Bool :=
  (n.kind == "new" && fvDotName (n.get "what") == some simple) ||
  ((n.kind == "method" || n.kind == "function") &&
    ((n.getArr "arguments").getD []).any
      (fun arg => fvDotName (arg.get "type") == some simple)) ||
  ((n.kind == "method" || n.kind == "function") &&
    fvDotName (n.get "type") == some simple) ||
  (n.kind == "class" &&
    (fvDotName (n.get "extends") == some simple ||
      ((n.getArr "implements").getD []).any
        (fun imp => imp.getStr "name" == some simple))) ||
  (n.kind == "staticlookup" && fvDotName (n.get "what") == some simple)

mutual
/-- `checkUsage` on one node: its own patterns, then recursion into
`children`, `body` and `arguments`. -/
def cuNodeF (simple : String) : Nat → Node → Bool
  | 0, _ => false
  | fuel + 1, n =>
    cuMatch simple n ||
      cuListF simple fuel ((n.getArr "children").getD []) ||
      cuListF simple fuel (bodyList n) ||
      cuListF simple fuel ((n.getArr "arguments").getD [])

def cuListF (simple : String) : Nat → List Node → Bool
  | 0, _ => false
  | fuel + 1, l =>
    match l with
    | [] => false
    | n :: rest => cuNodeF simple fuel n || cuListF simple fuel rest
end

/-- Pass-2 item test: `useNameStr === oldFqn ||
useNameStr.endsWith('\\' + oldFqn.split('\\').pop())`. -/
def fauiTraverseMatch (oldFqn : String) (it : Node) : Bool :=
  match useItemName it with
  | some u => u == oldFqn || strEnds u ("\x5c" ++ lastPart oldFqn)
  | none => false

/-- Pass-2 handling of one use-statement item: set the rename flag and,
when the item has a location, either delete the whole statement line(s)
(`newFqn`'s namespace equals the file's and the group has one item) or
replace the item by `newFqn`. -/
def fauiItemEdits (oldFqn newFqn : String) (curNs : Option String)
    (glc : Option Loc) (nitems : Nat) (acc : Bool × List TextEdit)
    (it : Node) : Bool × List TextEdit :=
  if fauiTraverseMatch oldFqn it then
    let acc := (true, acc.2)
    match it.loc with
    | some ilc =>
      if some (nsPart newFqn) == curNs ∧ nitems = 1 then
        match glc with
        | some g =>
          (acc.1, acc.2 ++ [⟨⟨⟨g.sline - 1, 0⟩, ⟨g.eline, 0⟩⟩, ""⟩])
        | none => acc
      else (acc.1, acc.2 ++ [⟨locRange ilc, newFqn⟩])
    | none => acc
  else acc

mutual
/-- Pass-2 `traverse`: use-statement rewrites, recursing through
`children` and `body` only, threading `(shouldRenameUsages, edits)`. -/
def fauiTravNodeF (oldFqn newFqn : String) (curNs : Option String) :
    Nat → (Bool × List TextEdit) → Node → Bool × List TextEdit
  | 0, acc, _ => acc
  | fuel + 1, acc, n =>
    let acc :=
      if n.kind = "usegroup" then
        match n.getArr "items" with
        | some items =>
          items.foldl
            (fauiItemEdits oldFqn newFqn curNs n.loc items.length) acc
        | none => acc
      else acc
    let acc :=
      fauiTravListF oldFqn newFqn curNs fuel acc
        ((n.getArr "children").getD [])
    fauiTravListF oldFqn newFqn curNs fuel acc (bodyList n)

def fauiTravListF (oldFqn newFqn : String) (curNs : Option String) :
    Nat → (Bool × List TextEdit) → List Node → Bool × List TextEdit
  | 0, acc, _ => acc
  | fuel + 1, acc, l =>
    match l with
    | [] => acc
    | n :: rest =>
      fauiTravListF oldFqn newFqn curNs fuel
        (fauiTravNodeF oldFqn newFqn curNs fuel acc n) rest
end

/-- Pass-3 per-node edits of `renameUsagesTraverse`: instantiations,
parameter type hints, return types and static lookups whose `.name` is
the old short name, each rewritten to the new short name at its own
location. -/
def ruNodeEdits (old new : String) (n : Node) : List TextEdit :=
  let atLoc : Option Node → List TextEdit := fun m =>
    match m.bind Node.loc with
    | some lc => [⟨locRange lc, new⟩]
    | none => []
  let e1 :=
    if n.kind == "new" && fvDotName (n.get "what") == some old then
      atLoc (n.getNode "what")
    else []
  let e2 :=
    if n.kind == "method" || n.kind == "function" then
      ((n.getArr "arguments").getD []).foldl
        (fun acc arg =>
          if fvDotName (arg.get "type") == some old then
            acc ++ atLoc (arg.getNode "type")
          else acc) []
    else []
  let e3 :=
    if (n.kind == "method" || n.kind == "function") &&
        fvDotName (n.get "type") == some old then
      atLoc (n.getNode "type")
    else []
  let e5 :=
    if n.kind == "staticlookup" && fvDotName (n.get "what") == some old then
      atLoc (n.getNode "what")
    else []
  e1 ++ e2 ++ e3 ++ e5

/-- The keys the pass-3 generic recursion skips. -/
def ruSkipKey (k : String) : Bool :=
  k == "loc" || k == "kind" || k == "name" || k == "what" || k == "type"

mutual
/-- Pass-3 `renameUsagesTraverse` on one node: its own edits, then the
generic `for key in node` recursion. -/
def ruNodeF (old new : String) : Nat → List TextEdit → Node →
    List TextEdit
  | 0, acc, _ => acc
  | fuel + 1, acc, n =>
    ruFieldsF old new fuel (acc ++ ruNodeEdits old new n) n.fields

def ruFieldsF (old new : String) : Nat → List TextEdit →
    List (String × FieldVal) → List TextEdit
  | 0, acc, _ => acc
  | fuel + 1, acc, fs =>
    match fs with
    | [] => acc
    | (k, v) :: rest =>
      let acc := if ruSkipKey k then acc else ruFVF old new fuel acc v
      ruFieldsF old new fuel acc rest

def ruFVF (old new : String) : Nat → List TextEdit → FieldVal →
    List TextEdit
  | 0, acc, _ => acc
  | fuel + 1, acc, v =>
    match v with
    | .vnode m => ruNodeF old new fuel acc m
    | .varr l => if l.isEmpty then acc else ruListF old new fuel acc l
    | .vstr _ => acc
    | .vstrs _ => acc

def ruListF (old new : String) : Nat → List TextEdit → List Node →
    List TextEdit
  | 0, acc, _ => acc
  | fuel + 1, acc, l =>
    match l with
    | [] => acc
    | n :: rest => ruListF old new fuel (ruNodeF old new fuel acc n) rest
end

/-- The pass-1 insertion position: after the last use statement, else
after the namespace declaration, else line 1. -/
def fauiInsertPos (a : FauiAnalysis) : EPos :=
  match a.lastUseStatementEnd with
  | some p => p
  | none =>
    match a.namespaceEnd with
    | some p => p
    | none => ⟨1, 0⟩

/-- `findAndUpdateImports(ast, content, oldFqn, newFqn, oldNs, newNs)`:
pass 0 analysis, pass 1 implicit-import insertion, pass 2 use-statement
rewrite, pass 3 short-name usage rename; `none` when no edit results. -/
def findAndUpdateImportsModel (ast : Node) (content : String)
    (oldFqn newFqn : String) (oldNs _newNs : Option String) :
    Option (List TextEdit) :=
  let kids := (ast.getArr "children").getD []
  let a := fauiPass0 content oldFqn kids ⟨none, false, none, none⟩
  let simpleClassName := lastPart oldFqn
  let usageFound :=
    a.currentFileNamespace == oldNs && !a.hasExistingImport &&
      simpleClassName != "" && cuListF simpleClassName (nodeSize ast) kids
  let insertEdits : List TextEdit :=
    if usageFound then
      [⟨⟨fauiInsertPos a, fauiInsertPos a⟩, "use " ++ newFqn ++ ";\n"⟩]
    else []
  let tr :=
    fauiTravListF oldFqn newFqn a.currentFileNamespace (nodeSize ast)
      (usageFound, []) kids
  let simpleOldName := lastPart oldFqn
  let simpleNewName := lastPart newFqn
  let renameEdits :=
    if tr.1 && simpleOldName != "" && simpleNewName != "" &&
        simpleOldName != simpleNewName then
      ruListF simpleOldName simpleNewName (nodeSize ast) [] kids
    else []
  let edits := insertEdits ++ tr.2 ++ renameEdits
  if edits.length > 0 then some edits else none

/-- The file

```php
<?php                          // line 1
namespace B;                   // line 2
use A\Old; $v = Old::FOO;      // line 3: use at cols 0–10, Old at 16–19
```

moved against `oldFqn = A\Old`, `newFqn = B\New`: the use statement and
a static usage share line 3. -/
def redundantUseContent : String :=
  "<?php\nnamespace B;\nuse A\x5cOld; $v = Old::FOO;\n"

def redundantUseAst : Node :=
  programNode
    [.mk "namespace" (some ⟨2, 0, 3, 25⟩)
      [("name", .vstr "B"),
        ("children", .varr
          [.mk "usegroup" (some ⟨3, 0, 3, 10⟩)
            [("items", .varr
              [.mk "useitem" (some ⟨3, 4, 3, 9⟩)
                [("name", .vstr "A\x5cOld")]])],
          exprStmt (.mk "assign" none
            [("left", .vnode (varNode "v")),
              ("right", .vnode (.mk "staticlookup" (some ⟨3, 16, 3, 24⟩)
                [("what", .vnode (.mk "name" (some ⟨3, 16, 3, 19⟩)
                    [("name", .vstr "Old")])),
                  ("offset", .vnode (idNode "FOO" ⟨3, 21, 3, 24⟩))]))])])]]

/-- **C3 counterexample.**  A single `findAndUpdateImports` invocation
(file move of `A\Old` into the referencing file's namespace `B`, as
`B\New`) produces two edits in one file whose ranges overlap: pass 2
deletes the whole redundant `use A\Old;` line — the range
`(2,0)–(3,0)` spanning all of line 3 — while pass 3 rewrites the
same-line usage `Old::FOO` at `(2,16)–(2,19)`, which lies inside the
deleted span. -/
theorem findAndUpdateImports_overlapping_edits :
    findAndUpdateImportsModel redundantUseAst redundantUseContent
        "A\x5cOld" "B\x5cNew" (some "A") (some "B") =
      some [⟨⟨⟨2, 0⟩, ⟨3, 0⟩⟩, ""⟩, ⟨⟨⟨2, 16⟩, ⟨2, 19⟩⟩, "New"⟩] ∧
      rangesDisjoint ⟨⟨2, 0⟩, ⟨3, 0⟩⟩ ⟨⟨2, 16⟩, ⟨2, 19⟩⟩ = false := by
  refine ⟨by decide, by decide⟩

/-! ## §4.4(d) — implicit-import insertion on file move (C7)

`checkUsage` recurses only through `children`, `body` and `arguments`,
so a usage nested under a statement's expression field (the normal shape
of `$x = new X();` or a bare `X::m();` statement) is never reached. -/

/-- The `new Old()` node of `implicitNewAst` (with its `what` name and
empty argument list), exactly the shape `checkUsage`'s instantiation
pattern tests for. -/
def newOldNode : Node :=
  .mk "new" (some ⟨3, 5, 3, 14⟩)
    [("what", .vnode (.mk "name" (some ⟨3, 9, 3, 12⟩)
        [("name", .vstr "Old")])),
      ("arguments", .varr [])]

/-- The file

```php
<?php                 // line 1
namespace A;          // line 2
$x = new Old();       // line 3
```

which uses `Old` implicitly (same namespace, no import) through an
instantiation inside an expression statement. -/
def implicitNewContent : String :=
  "<?php\nnamespace A;\n$x = new Old();\n"

def implicitNewAst : Node :=
  programNode
    [.mk "namespace" (some ⟨2, 0, 3, 15⟩)
      [("name", .vstr "A"),
        ("children", .varr
          [exprStmt (.mk "assign" none
            [("left", .vnode (varNode "x")),
              ("right", .vnode newOldNode)])])]]

/-- **C7 counterexample.**  Moving `A\Old` to `A\Utils\Old`: the
referencing file is in the old namespace `A`, has no import, and
instantiates `Old` — the instantiation node itself satisfies
`checkUsage`'s own pattern — yet `findAndUpdateImports` produces no edit
at all (in particular no `use A\Utils\Old;` insertion), because the
recursion never descends through the expression statement's
`expression` field to reach the `new` node. -/
theorem findAndUpdateImports_misses_statement_instantiation :
    cuMatch "Old" newOldNode = true ∧
      findAndUpdateImportsModel implicitNewAst implicitNewContent
          "A\x5cOld" "A\x5cUtils\x5cOld" (some "A") (some "A\x5cUtils") =
        none := by
  refine ⟨by decide, by decide⟩

/-- **C7 amended.**  The insertion does happen for usages the recursion
can see: whenever the top-level analysis of the referencing file finds
its namespace equal to the moved type's old namespace and no existing
import, the short name is nonempty, and `checkUsage` — searching only
positions reachable through `children`/`body`/`arguments` chains, such
as extends/implements clauses and parameter/return type hints — detects
a usage, then the planner's first emitted edit is an insertion of
`use <newFQN>;` (at the end of the use block, else after the namespace
declaration, else at line 1). -/
theorem findAndUpdateImports_inserts_on_detected_usage (ast : Node)
    (content oldFqn newFqn : String) (oldNs newNs : Option String)
    (a : FauiAnalysis)
    (ha : fauiPass0 content oldFqn ((ast.getArr "children").getD [])
      ⟨none, false, none, none⟩ = a)
    (h1 : a.currentFileNamespace = oldNs)
    (h2 : a.hasExistingImport = false)
    (h3 : lastPart oldFqn ≠ "")
    (h4 : cuListF (lastPart oldFqn) (nodeSize ast)
      ((ast.getArr "children").getD []) = true) :
    ∃ p rest,
      findAndUpdateImportsModel ast content oldFqn newFqn oldNs newNs =
        some (⟨⟨p, p⟩, "use " ++ newFqn ++ ";\n"⟩ :: rest) := by
  have hu : (a.currentFileNamespace == oldNs && !a.hasExistingImport &&
      lastPart oldFqn != "" &&
      cuListF (lastPart oldFqn) (nodeSize ast)
        ((ast.getArr "children").getD [])) = true := by
    simp [h1, h2, h4, bne_iff_ne, h3]
  simp only [findAndUpdateImportsModel]
  rw [ha, hu]
  simp only [if_true, Bool.true_and]
  refine ⟨fauiInsertPos a,
    (fauiTravListF oldFqn newFqn a.currentFileNamespace (nodeSize ast)
        (true, []) ((ast.getArr "children").getD [])).2 ++
      (if ((fauiTravListF oldFqn newFqn a.currentFileNamespace (nodeSize ast)
              (true, []) ((ast.getArr "children").getD [])).1 &&
            lastPart oldFqn != "" && lastPart newFqn != "" &&
            lastPart oldFqn != lastPart newFqn) = true then
        ruListF (lastPart oldFqn) (lastPart newFqn) (nodeSize ast) []
          ((ast.getArr "children").getD [])
      else []), ?_⟩
  rw [if_pos (by
    simp only [List.length_append, List.length_cons, List.length_nil]
    omega)]
  rfl

/-- The file

```php
<?php                    // line 1
namespace A;             // line 2
class C extends Old {}   // line 3, Old at cols 16-19
```

whose usage of `Old` sits in an extends clause, which `checkUsage`
reaches (class nodes are direct namespace children). -/
def extendsTestContent : String :=
  "<?php\nnamespace A;\nclass C extends Old \x7b\x7d\n"

def extendsTestAst : Node :=
  programNode
    [.mk "namespace" (some ⟨2, 0, 3, 22⟩)
      [("name", .vstr "A"),
        ("children", .varr
          [.mk "class" (some ⟨3, 0, 3, 22⟩)
            [("name", .vnode (idNode "C" ⟨3, 6, 3, 7⟩)),
              ("extends", .vnode (.mk "name" (some ⟨3, 16, 3, 19⟩)
                [("name", .vstr "Old")])),
              ("body", .varr [])]])]]

/-- Witness for the amended C7 statement: for the extends-clause file all
four hypotheses hold concretely, and the planner's edit list starts with
the `use A\Utils\Old;` insertion. -/
theorem findAndUpdateImports_inserts_witness :
    (fauiPass0 extendsTestContent "A\x5cOld"
        ((extendsTestAst.getArr "children").getD [])
        ⟨none, false, none, none⟩ =
      (⟨some "A", false, none, some ⟨2, 0⟩⟩ : FauiAnalysis)) ∧
    (⟨some "A", false, none, some ⟨2, 0⟩⟩ : FauiAnalysis).hasExistingImport
        = false ∧
    lastPart "A\x5cOld" ≠ "" ∧
    cuListF (lastPart "A\x5cOld") (nodeSize extendsTestAst)
        ((extendsTestAst.getArr "children").getD []) = true ∧
    (∃ p rest,
      findAndUpdateImportsModel extendsTestAst extendsTestContent
          "A\x5cOld" "A\x5cUtils\x5cOld" (some "A") (some "A\x5cUtils") =
        some (⟨⟨p, p⟩, "use " ++ "A\x5cUtils\x5cOld" ++ ";\n"⟩ :: rest)) :=
  ⟨by decide, by decide, by decide, by decide,
    findAndUpdateImports_inserts_on_detected_usage extendsTestAst
      extendsTestContent "A\x5cOld" "A\x5cUtils\x5cOld" (some "A")
      (some "A\x5cUtils") ⟨some "A", false, none, some ⟨2, 0⟩⟩ (by decide)
      (by decide) (by decide) (by decide) (by decide)⟩

/-! ## §4.4(e) — `PhpRenameProvider.provideRenameEdits` (unnamed/part_010)

The method-rename path of the rename provider: after STEP 1 locates the
cursor's method and enclosing type (`targetClassName`, `targetType`,
`isMethodRename`) and STEP 2 collects implementors of an interface
target from the index's inheritance edges, each file's AST is walked by
`traverse`, which tracks the current class lexically, renames method
definitions in the target type and its implementors, and renames call
sites by receiver analysis.  The `variableTypes` map is created and read
(case 2, `$var->method()`) but no statement in the function ever inserts
into it, so it is embedded as the constantly-empty map. -/

/-- `Indexer.getImplementations` (unnamed/part_005 107–115): the classes
whose recorded `implements` list contains the interface, in insertion
order (`Map.entries` order; keys are unique per file scan). -/
def getImplementationsModel (inhs : List (String × InheritanceInfo))
    (ifaceName : String) : List String :=
  (inhs.filter (fun p => p.2.implementsNames.contains ifaceName)).map
    Prod.fst

/-- JS `===` between a possibly-absent string and a `string | null`
value where an absent left side means `undefined` or a non-string: never
equal unless both are present strings. -/
def optStrEq : Option String → Option String → Bool
  | some a, some b => a == b
  | _, _ => false

/-- `typeof v === 'string' ? v : (v.name || v)` — the offset/what name
extraction of cases 4 and 5; a node without a string `name` yields the
object itself, which no string comparison matches. -/
def strOrDotName : Option FieldVal → Option String
  | some (.vstr s) => some s
  | some (.vnode m) => m.getStr "name"
  | _ => none

/-- The rename request as the traversal sees it: the word under the
cursor, the replacement, and STEP 1/2's context. -/
structure PrvCtx where
  oldName : String
  newName : String
  isMethodRename : Bool
  targetClassName : Option String
  targetType : Option String
  targetImplementations : List String
deriving Repr

/-- `addEdit(x)` on a field that must be an object with a location:
`typeof x === 'object' && x.loc` guards every call. -/
def prvNodeEdit (newName : String) : Option FieldVal → List TextEdit
  | some (.vnode m) =>
    match m.loc with
    | some lc => [⟨locRange lc, newName⟩]
    | none => []
  | _ => []

/-- `currentClassName === targetClassName || (targetType === 'interface'
&& currentClassName !== null &&
targetImplementations.includes(currentClassName))`. -/
def shouldRenameInThisClass (ctx : PrvCtx) (curCls : Option String) :
    Bool :=
  curCls == ctx.targetClassName ||
    (ctx.targetType == some "interface" &&
      (match curCls with
       | some c => ctx.targetImplementations.contains c
       | none => false))

/-- Branch 1 (class definitions, only when not a method rename): rename
the class's name node when it matches. -/
def prvClassDefEdits (ctx : PrvCtx) (n : Node) : List TextEdit :=
  match n.get "name" with
  | some (.vnode m) =>
    if m.getStr "name" == some ctx.oldName then
      prvNodeEdit ctx.newName (some (.vnode m))
    else []
  | _ => []

/-- Branch 1b's `checkMethods`: rename each matching method-definition
name node of the class body. -/
def prvMethodDefEdits (ctx : PrvCtx) (bodyNodes : List Node) :
    List TextEdit :=
  bodyNodes.foldl
    (fun acc bn =>
      if bn.kind == "method" && useItemName bn == some ctx.oldName then
        acc ++ prvNodeEdit ctx.newName (bn.get "name")
      else acc) []

/-- Branch 2: rewrite matching use-statement items to the suffix-swapped
FQN. -/
def prvUseEdits (ctx : PrvCtx) (n : Node) : List TextEdit :=
  if n.kind == "usegroup" then
    ((n.getArr "items").getD []).foldl
      (fun acc it =>
        match it.getStr "name" with
        | some u =>
          if strEnds u ("\x5c" ++ ctx.oldName) || u == ctx.oldName then
            match it.loc with
            | some lc =>
              acc ++ [⟨locRange lc,
                replaceSuffix u ctx.oldName ctx.newName⟩]
            | none => acc
          else acc
        | none => acc) []
  else []

/-- Branch 3 (name nodes, only when not a method rename): the source
pushes *two* replacements for one matching name node — `addEdit(node)`
with the bare new name, then a second replace with the suffix-swapped
full name. -/
def prvNameEdits (ctx : PrvCtx) (n : Node) : List TextEdit :=
  if !ctx.isMethodRename && n.kind == "name" then
    match n.getStr "name" with
    | some nm =>
      if lastPart nm == ctx.oldName then
        (match n.loc with
         | some lc => [⟨locRange lc, ctx.newName⟩]
         | none => []) ++
        (match n.loc with
         | some lc =>
           [⟨locRange lc, replaceSuffix nm ctx.oldName ctx.newName⟩]
         | none => [])
      else []
    | none => []
  else []

/-- Branch 4 (`propertylookup` calls): `$this->old()` renames when the
lexically current class is the target or an implementor; `$var->old()`
renames when `variableTypes` knows the variable's type and it matches —
`vt` is that map. -/
def prvPropEdits (ctx : PrvCtx) (vt : VarScope) (curCls : Option String)
    (n : Node) : List TextEdit :=
  if ctx.isMethodRename && n.kind == "propertylookup" then
    match n.get "offset" with
    | some off =>
      if strOrDotName (some off) == some ctx.oldName then
        let shouldRename :=
          match n.getNode "what" with
          | some w =>
            if w.kind == "variable" && w.getStr "name" == some "this" then
              curCls == ctx.targetClassName ||
                (ctx.targetType == some "interface" &&
                  (match curCls with
                   | some c => ctx.targetImplementations.contains c
                   | none => false))
            else if w.kind == "variable" then
              let varType := (w.getStr "name").bind vt
              optStrEq varType ctx.targetClassName ||
                (ctx.targetType == some "interface" &&
                  (match varType with
                   | some v => ctx.targetImplementations.contains v
                   | none => false))
            else false
          | none => false
        if shouldRename then prvNodeEdit ctx.newName (some off) else []
      else []
    | none => []
  else []

/-- Branch 5 (`staticlookup` calls): rename when the written class name
matches the target, is `self`/`static` inside the target class, or is a
registered implementor of an interface target. -/
def prvStaticEdits (ctx : PrvCtx) (curCls : Option String) (n : Node) :
    List TextEdit :=
  if ctx.isMethodRename && n.kind == "staticlookup" then
    match n.get "offset", n.get "what" with
    | some off, some whatF =>
      if strOrDotName (some off) == some ctx.oldName then
        let className := strOrDotName (some whatF)
        let shouldRename :=
          optStrEq className ctx.targetClassName ||
            (curCls == ctx.targetClassName &&
              (className == some "self" || className == some "static")) ||
            (ctx.targetType == some "interface" &&
              (match className with
               | some c => ctx.targetImplementations.contains c
               | none => false))
        if shouldRename then prvNodeEdit ctx.newName (some off) else []
      else []
    | _, _ => []
  else []

mutual
/-- The provider's `traverse` on one node.  A class/interface/trait node
handles branches 1/1b, then recurses into `children` and `body` with
itself as the current class and *skips* the usage branches (`continue`);
any other node runs branches 2–5 and recurses into `children` and
`body` only — statement nodes expose neither, so expressions nested
under them (`expression`, `expr`, `left`, `right`, …) are never
visited. -/
def prvNodeF (ctx : PrvCtx) (vt : VarScope) : Nat → Option String →
    List TextEdit → Node → List TextEdit
  | 0, _, acc, _ => acc
  | fuel + 1, curCls, acc, n =>
    if n.kind == "class" || n.kind == "interface" || n.kind == "trait" then
      let className := useItemName n
      let acc :=
        if !ctx.isMethodRename then acc ++ prvClassDefEdits ctx n else acc
      let acc :=
        if ctx.isMethodRename && shouldRenameInThisClass ctx className then
          acc ++ prvMethodDefEdits ctx (bodyMembers n)
        else acc
      let acc :=
        prvListF ctx vt fuel className acc ((n.getArr "children").getD [])
      prvListF ctx vt fuel className acc (bodyMembers n)
    else
      let acc := acc ++ prvUseEdits ctx n ++ prvNameEdits ctx n ++
        prvPropEdits ctx vt curCls n ++ prvStaticEdits ctx curCls n
      let acc :=
        prvListF ctx vt fuel curCls acc ((n.getArr "children").getD [])
      prvListF ctx vt fuel curCls acc (bodyMembers n)

def prvListF (ctx : PrvCtx) (vt : VarScope) : Nat → Option String →
    List TextEdit → List Node → List TextEdit
  | 0, _, acc, _ => acc
  | fuel + 1, curCls, acc, l =>
    match l with
    | [] => acc
    | n :: rest =>
      prvListF ctx vt fuel curCls (prvNodeF ctx vt fuel curCls acc n) rest
end

/-- One file's contribution to the rename provider's workspace edit:
`traverse(ast.children)` with no current class and the never-populated
`variableTypes` map. -/
def provideRenameEditsFileModel (ctx : PrvCtx) (ast : Node) :
    List TextEdit :=
  prvListF ctx (fun _ => none) (nodeSize ast) none []
    ((ast.getArr "children").getD [])

/-- `{kind:'propertylookup', what:$v, offset:identifier m@lc}` — the
receiver-method shape of a call `$v->m(...)`. -/
def propLookup (v m : String) (lc : Loc) : Node :=
  .mk "propertylookup" none
    [("what", .vnode (varNode v)), ("offset", .vnode (idNode m lc))]

/-- The inheritance entries `updateIndexForFile` records for the spec's
logger file (`unnamed/part_002`): `FileLogger` and `DatabaseLogger` both
implement `LoggerInterface`; the interface and `Application` implement
nothing. -/
def loggerInhs : List (String × InheritanceInfo) :=
  [("LoggerInterface", ⟨"LoggerInterface", none, []⟩),
    ("FileLogger", ⟨"FileLogger", none, ["LoggerInterface"]⟩),
    ("DatabaseLogger", ⟨"DatabaseLogger", none, ["LoggerInterface"]⟩),
    ("Application", ⟨"Application", none, []⟩)]

/-- **C2 failing-input analysis.**  For the logger file, the index does
collect both implementors of `LoggerInterface` (part 3), and the
definition-rename branch does cover them — but no call site typed as
the interface can ever be renamed: (part 1) an `expressionstatement`
node — the shape wrapping every call statement such as
`$logger->log(...)` — contributes exactly nothing to the traversal, for
*any* expression payload, because the recursion descends only through
`children` and `body` and a statement exposes neither; and (part 2)
even when a `$var->method()` node is reached directly, a receiver other
than `$this` is never renamed under the provider's variable-type map,
which no statement of the source ever populates — so case 2's type
lookup always misses. -/
theorem provideRenameEdits_interface_call_sites_not_renamed :
    (∀ (ctx : PrvCtx) (vt : VarScope) (fuel : Nat) (cur : Option String)
      (acc : List TextEdit) (e : Node),
      prvNodeF ctx vt fuel cur acc (exprStmt e) = acc) ∧
    (∀ (ctx : PrvCtx) (cur : Option String) (v m : String) (lc : Loc),
      v ≠ "this" →
      prvPropEdits ctx (fun _ => none) cur (propLookup v m lc) = []) ∧
    getImplementationsModel loggerInhs "LoggerInterface" =
      ["FileLogger", "DatabaseLogger"] := by
  refine ⟨?_, ?_, by decide⟩
  · intro ctx vt fuel cur acc e
    have hnil : ∀ (f : Nat) (c : Option String) (a : List TextEdit),
        prvListF ctx vt f c a [] = a := by
      intro f c a
      cases f <;> rfl
    cases fuel with
    | zero => rfl
    | succ f =>
      simp [prvNodeF, exprStmt, Node.kind, prvUseEdits, prvNameEdits,
        prvPropEdits, prvStaticEdits, bodyMembers, Node.get, Node.getArr,
        Node.getNode, Node.fields, lookupF, hnil]
  · intro ctx cur v m lc hv
    simp only [prvPropEdits, propLookup, Node.kind, Node.get, Node.getNode,
      Node.getStr, lookupF]
    by_cases hm : ctx.isMethodRename
    · by_cases ho : m = ctx.oldName
      · simp [hm, ho, strOrDotName, varNode, idNode, Node.getStr, Node.get,
          lookupF, optStrEq, hv]
      · simp [hm, ho, strOrDotName, idNode, Node.getStr, Node.get, lookupF]
    · simp [hm]

/-- Witness for the C2 analysis at concrete inputs: the
`$logger->log("go");` statement of the logger file contributes no edit
(any fuel, here 9), and its `propertylookup` node, even inspected
directly with the rename context of the `LoggerInterface::log` request,
yields no edit because the receiver `$logger` is not `$this`. -/
theorem provideRenameEdits_interface_witness :
    prvNodeF
        (⟨"log", "writeLog", true, some "LoggerInterface",
          some "interface", ["FileLogger", "DatabaseLogger"]⟩ : PrvCtx)
        (fun _ => none) 9 (some "Application") []
        (exprStmt (.mk "call" none
          [("what", .vnode (propLookup "logger" "log" ⟨14, 17, 14, 20⟩)),
            ("arguments", .varr
              [.mk "string" (some ⟨14, 21, 14, 25⟩) []])])) = [] ∧
      prvPropEdits
        (⟨"log", "writeLog", true, some "LoggerInterface",
          some "interface", ["FileLogger", "DatabaseLogger"]⟩ : PrvCtx)
        (fun _ => none) (some "Application")
        (propLookup "logger" "log" ⟨14, 17, 14, 20⟩) = [] :=
  ⟨provideRenameEdits_interface_call_sites_not_renamed.1 _ _ 9
      (some "Application") [] _,
    (provideRenameEdits_interface_call_sites_not_renamed.2.1 _
      (some "Application") "logger" "log" ⟨14, 17, 14, 20⟩ (by decide))⟩

/-! ## §4.5 — `PhpImportDiagnostics.updateDiagnostics`
(src/importDiagnostics.ts 24–203)

One diagnostics pass over a file: `collectImports` gathers the current
namespace and the imported short names (honouring aliases),
`findClassUsages` gathers referenced type-name occurrences with their
locations (builtin filtering applies only to parameter / method-return /
property type hints), and the final loop flags every occurrence that is
neither imported nor resolvable to an indexed symbol of the file's own
namespace. -/

/-- ASCII lowercasing, as `toLowerCase` behaves on the builtin names. -/
def lowerChar (c : Char) : Char :=
  if 'A' ≤ c ∧ c ≤ 'Z' then Char.ofNat (c.toNat + 32) else c

def strLower (s : String) : String :=
  ⟨s.data.map lowerChar⟩

/-- `isBuiltInType` (lines 200–203). -/
def isBuiltInType (t : String) : Bool :=
  ["int", "string", "bool", "float", "array", "object", "callable",
    "iterable", "void", "mixed", "never", "null", "true",
    "false"].contains (strLower t)

/-- One use-statement item's imported short name: the alias when one is
present (with a nonempty name), else the FQN's last component. -/
def ciItemName (it : Node) : Option String :=
  match it.getStr "name" with
  | some fqn =>
    some (match (it.getNode "alias").bind (fun a => a.getStr "name") with
      | some al => if al ≠ "" then al else lastPart fqn
      | none => lastPart fqn)
  | none => none

mutual
/-- `collectImports`: threads `(currentNamespace, imports)`; a namespace
node updates the namespace and recurses into its children, a usegroup
contributes its items, any other node recurses into `children` when
present. -/
def ciNodeF : Nat → String × List String → Node → String × List String
  | 0, acc, _ => acc
  | fuel + 1, acc, n =>
    if n.kind = "namespace" then
      ciListF fuel ((n.getStr "name").getD acc.1, acc.2)
        ((n.getArr "children").getD [])
    else if n.kind = "usegroup" then
      (acc.1, acc.2 ++ ((n.getArr "items").getD []).filterMap ciItemName)
    else
      match n.getArr "children" with
      | some l => ciListF fuel acc l
      | none => acc

def ciListF : Nat → String × List String → List Node →
    String × List String
  | 0, acc, _ => acc
  | fuel + 1, acc, l =>
    match l with
    | [] => acc
    | n :: rest => ciListF fuel (ciNodeF fuel acc n) rest
end

/-- A type-hint usage (`node.type.name` nonempty, not a builtin) — the
shared shape of the parameter, method-return and property cases. -/
def fcuTypeHit (n : Node) : Option (String × Option Loc) :=
  match n.getNode "type" with
  | some t =>
    match t.getStr "name" with
    | some tn =>
      if tn ≠ "" ∧ ¬isBuiltInType tn then some (tn, t.loc) else none
    | none => none
  | none => none

/-- The usage entries one node contributes, in the source's order:
parameter type hints, method return types, instantiations, static
lookups (minus `self`/`parent`/`static`), extends, implements, property
types.  Instantiations, static lookups, extends and implements have *no*
builtin filter. -/
def fcuNodeHits (n : Node) : List (String × Option Loc) :=
  (if n.kind == "parameter" then (fcuTypeHit n).toList else []) ++
  (if n.kind == "method" then (fcuTypeHit n).toList else []) ++
  (if n.kind == "new" then
    (match n.getNode "what" with
     | some w =>
       match w.getStr "name" with
       | some cn => if cn ≠ "" then [(cn, w.loc)] else []
       | none => []
     | none => [])
  else []) ++
  (if n.kind == "staticlookup" then
    (match n.getNode "what" with
     | some w =>
       match w.getStr "name" with
       | some cn =>
         if cn ≠ "" ∧ cn ≠ "self" ∧ cn ≠ "parent" ∧ cn ≠ "static" then
           [(cn, w.loc)]
         else []
       | none => []
     | none => [])
  else []) ++
  (if (n.kind == "class" || n.kind == "interface") &&
      (n.get "extends").isSome then
    (match strOrDotName (n.get "extends") with
     | some en =>
       [(en, match n.getNode "extends" with
         | some m => match m.loc with | some lc => some lc | none => n.loc
         | none => n.loc)]
     | none => [])
  else []) ++
  (if n.kind == "class" then
    (match n.get "implements" with
     | some (.varr l) =>
       l.filterMap (fun im =>
         (im.getStr "name").map (fun inm =>
           (inm, match im.loc with
             | some lc => some lc
             | none => n.loc)))
     | some (.vstrs ss) => ss.map (fun s => (s, n.loc))
     | _ => [])
  else []) ++
  (if n.kind == "property" then (fcuTypeHit n).toList else [])

mutual
/-- `findClassUsages`: per-node hits, then recursion into `children`,
`arguments`, `parameters` and `body` — statement nodes expose none of
these, so usages nested under a statement's expression are never
reached. -/
def fcuNodeF : Nat → List (String × Option Loc) → Node →
    List (String × Option Loc)
  | 0, acc, _ => acc
  | fuel + 1, acc, n =>
    let acc := acc ++ fcuNodeHits n
    let acc := fcuListF fuel acc ((n.getArr "children").getD [])
    let acc := fcuListF fuel acc ((n.getArr "arguments").getD [])
    let acc := fcuListF fuel acc ((n.getArr "parameters").getD [])
    fcuListF fuel acc (bodyMembers n)

def fcuListF : Nat → List (String × Option Loc) → List Node →
    List (String × Option Loc)
  | 0, acc, _ => acc
  | fuel + 1, acc, l =>
    match l with
    | [] => acc
    | n :: rest => fcuListF fuel (fcuNodeF fuel acc n) rest
end

def findClassUsagesModel (ast : Node) : List (String × Option Loc) :=
  fcuListF (nodeSize ast) [] ((ast.getArr "children").getD [])

/-- `currentNamespace ? currentNamespace + '\\' + name : name`. -/
def expectedFQNOf (ns name : String) : String :=
  if ns ≠ "" then ns ++ "\x5c" ++ name else name

/-- `currentNamespace.replace(/\\/g, '/')`. -/
def nsSlashes (ns : String) : String :=
  ⟨ns.data.map (fun c => if c = '\x5c' then '/' else c)⟩

/-- The same-namespace test over the indexed definitions of `name`: an
entry with a nonempty FQN must equal `expectedFQN`; an entry without one
falls back to the path containing the namespace written with slashes. -/
def inSameNamespaceD (defs : List SymbolDef) (ns name : String) : Bool :=
  defs.any (fun d =>
    if d.fqn.getD "" ≠ "" then d.fqn.getD "" == expectedFQNOf ns name
    else strContainsSub d.path (nsSlashes ns))

/-- The final check loop: skip imported names, skip same-namespace
resolvable names, emit a diagnostic at each remaining located
occurrence. -/
def diagnosticsOf (getDefs : String → List SymbolDef) (ns : String)
    (imports : List String) (used : List (String × Option Loc)) :
    List (String × ERange) :=
  used.filterMap (fun u =>
    if imports.contains u.1 then none
    else if inSameNamespaceD (getDefs u.1) ns u.1 then none
    else
      match u.2 with
      | some lc => some (u.1, locRange lc)
      | none => none)

/-- `updateDiagnostics` on one parsed file, given the indexer's
`getDefinitions` table. -/
def updateDiagnosticsModel (getDefs : String → List SymbolDef)
    (ast : Node) : List (String × ERange) :=
  let ci := ciListF (nodeSize ast) ("", [])
    ((ast.getArr "children").getD [])
  diagnosticsOf getDefs ci.1 ci.2 (findClassUsagesModel ast)

/-- The file

```php
<?php                       // line 1
namespace App\Services;     // line 2
$a = new UnimportedX();     // line 3, UnimportedX at cols 9-20
```

whose only type reference sits inside an expression statement. -/
def stmtNewAst : Node :=
  programNode
    [.mk "namespace" (some ⟨2, 0, 3, 23⟩)
      [("name", .vstr "App\x5cServices"),
        ("children", .varr
          [exprStmt (.mk "assign" none
            [("left", .vnode (varNode "a")),
              ("right", .vnode (.mk "new" (some ⟨3, 5, 3, 22⟩)
                [("what", .vnode (.mk "name" (some ⟨3, 9, 3, 20⟩)
                    [("name", .vstr "UnimportedX")])),
                  ("arguments", .varr [])]))])])]]

/-- The file

```php
<?php                       // line 1
namespace App\Services;     // line 2
class Y extends X {}        // line 3, X at cols 16-17
```

with no import statement, referencing `X` through an extends clause. -/
def extendsXAst : Node :=
  programNode
    [.mk "namespace" (some ⟨2, 0, 3, 20⟩)
      [("name", .vstr "App\x5cServices"),
        ("children", .varr
          [.mk "class" (some ⟨3, 0, 3, 20⟩)
            [("name", .vnode (idNode "Y" ⟨3, 6, 3, 7⟩)),
              ("extends", .vnode (.mk "name" (some ⟨3, 16, 3, 17⟩)
                [("name", .vstr "X")])),
              ("body", .varr [])]])]]

/-- **C8 counterexample.**  Both directions of the claimed equivalence
fail.  (i) `new UnimportedX()` — not a builtin, not imported, not
resolvable (the index is empty) — is *not* flagged: the usage finder
never reaches it through an expression statement, so the whole file
yields no diagnostic.  (ii) A bare extends-reference to `X`, *defined
in the file's own namespace* but indexed by an entry carrying no FQN
and stored at `src/X.php` (a path not containing `App/Services`), *is*
flagged even though the claim says a same-namespace definition never
produces a diagnostic. -/
theorem updateDiagnostics_not_an_equivalence :
    (findClassUsagesModel stmtNewAst = [] ∧
      updateDiagnosticsModel (fun _ => []) stmtNewAst = []) ∧
    updateDiagnosticsModel
        (fun nm => if nm = "X" then
          [⟨"X", "src/X.php", "class", none, none, none⟩] else [])
        extendsXAst =
      [("X", ⟨⟨2, 16⟩, ⟨2, 17⟩⟩)] := by
  refine ⟨⟨by decide, by decide⟩, by decide⟩

/-- **C8 amended.**  The precise rule: an occurrence `(name, range)` is
flagged iff the usage finder *detects* it at a located node — i.e. it is
a parameter/method-return/property type hint (those alone are
builtin-filtered), an instantiation, a non-`self`/`parent`/`static`
static lookup, or an extends/implements clause, reachable through
`children`/`arguments`/`parameters`/`body` chains only — and its name is
not in the import table (aliases included) and not resolvable to an
indexed definition of the file's namespace (FQN equality, or the
path-contains-namespace fallback for entries without an FQN). -/
theorem updateDiagnostics_flag_iff (getDefs : String → List SymbolDef)
    (ast : Node) (ns : String) (imps : List String)
    (hci : ciListF (nodeSize ast) ("", [])
      ((ast.getArr "children").getD []) = (ns, imps)) :
    ∀ nm r, (nm, r) ∈ updateDiagnosticsModel getDefs ast ↔
      ∃ lc, (nm, some lc) ∈ findClassUsagesModel ast ∧ r = locRange lc ∧
        imps.contains nm = false ∧
        inSameNamespaceD (getDefs nm) ns nm = false := by
  intro nm r
  unfold updateDiagnosticsModel diagnosticsOf
  rw [hci]
  constructor
  · intro h
    obtain ⟨u, hu, he⟩ := List.mem_filterMap.mp h
    obtain ⟨u1, u2⟩ := u
    dsimp only at he
    by_cases h1 : imps.contains u1 = true
    · rw [if_pos h1] at he
      exact absurd he (by simp)
    · rw [if_neg (by simpa using h1)] at he
      by_cases h2 : inSameNamespaceD (getDefs u1) ns u1 = true
      · rw [if_pos h2] at he
        exact absurd he (by simp)
      · rw [if_neg (by simpa using h2)] at he
        cases u2 with
        | none => exact absurd he (by simp)
        | some lc =>
          obtain ⟨hn, hr⟩ : u1 = nm ∧ locRange lc = r := by
            have := Option.some.inj he
            exact ⟨congrArg Prod.fst this, congrArg Prod.snd this⟩
          subst hn
          exact ⟨lc, hu, hr.symm, Bool.eq_false_iff.mpr h1,
            Bool.eq_false_iff.mpr h2⟩
  · rintro ⟨lc, hmem, hr, h1, h2⟩
    refine List.mem_filterMap.mpr ⟨(nm, some lc), hmem, ?_⟩
    dsimp only
    rw [if_neg (by simpa using h1), if_neg (by simpa using h2), hr]

/-- Witness for the amended C8 rule: for the extends-reference file with
an empty index, the import scan returns namespace `App\Services` with no
imports, and the rule's right-to-left direction yields the diagnostic on
`X` at editor range `(2,16)–(2,17)`. -/
theorem updateDiagnostics_flag_iff_witness :
    (ciListF (nodeSize extendsXAst) ("", [])
        ((extendsXAst.getArr "children").getD []) =
      ("App\x5cServices", [])) ∧
    ("X", (⟨⟨2, 16⟩, ⟨2, 17⟩⟩ : ERange)) ∈
      updateDiagnosticsModel (fun _ => []) extendsXAst :=
  ⟨by decide,
    (updateDiagnostics_flag_iff (fun _ => []) extendsXAst
        "App\x5cServices" [] (by decide) "X" ⟨⟨2, 16⟩, ⟨2, 17⟩⟩).mpr
      ⟨⟨3, 16, 3, 17⟩, by decide, by decide, by decide, by decide⟩⟩
